import Mathlib

/-!
Verification development for the PyOS desktop-shell repository.

Each app's claim-relevant code is shallowly embedded here: pure Python
functions become Lean functions, stateful handlers become explicit state
passing, Python machine behaviour (dict update order, stable sorting,
string comparison by code point, floor division and modulo) is modelled
explicitly.  Python `float` values are idealised as rationals; an opaque
constructor marks float results whose exact value the model does not
track, and no theorem below rests on such a value.
-/

/- ## Shared helpers: Python strings, stable sort, Python dicts -/

/-- Code-point lexicographic strict comparison on character lists,
matching Python's `str.__lt__`. -/
def pyStrLtAux : List Char → List Char → Bool
  | [], [] => false
  | [], _ :: _ => true
  | _ :: _, [] => false
  | a :: as, b :: bs =>
    if a.val < b.val then true
    else if b.val < a.val then false
    else pyStrLtAux as bs

/-- Python `a < b` on strings. -/
def pyStrLt (a b : String) : Bool := pyStrLtAux a.data b.data

/-- Python `a <= b` on strings. -/
def pyStrLe (a b : String) : Bool := !(pyStrLtAux b.data a.data)

/-- Insert `x` into a sorted list, before the first element `y` with
`le x y`; an earlier element is therefore placed before later equal
elements, which is the stability contract of Python's `list.sort`. -/
def ordIns (le : α → α → Bool) (x : α) : List α → List α
  | [] => [x]
  | y :: ys => if le x y then x :: y :: ys else y :: ordIns le x ys

/-- Stable ascending sort, extensionally equal to Python's `list.sort`
for any total preorder `le`. -/
def pySort (le : α → α → Bool) : List α → List α
  | [] => []
  | x :: xs => ordIns le x (pySort le xs)

/-- Python `d[k] = v` on a dict represented as an insertion-ordered
association list: replace in place when the key is present, else append.
Dicts reachable from Python code never hold duplicate keys, so replacing
the first occurrence is exact. -/
def dictUpd : List (String × α) → String → α → List (String × α)
  | [], k, v => [(k, v)]
  | p :: d, k, v => if p.1 = k then (k, v) :: d else p :: dictUpd d k v

/-- Python `{**a, **b}` / `a.update(b)`: fold `b`'s entries into `a`. -/
def dictMerge (a b : List (String × α)) : List (String × α) :=
  b.foldl (fun d p => dictUpd d p.1 p.2) a

/-- First-match lookup (unambiguous on dicts with unique keys). -/
def dlookup : List (String × α) → String → Option α
  | [], _ => none
  | p :: d, k => if p.1 = k then some p.2 else dlookup d k

/-- Last-match lookup: the value a Python dict built by inserting these
pairs in order would hold (a later duplicate key wins). -/
def pyLookup : List (String × α) → String → Option α
  | [], _ => none
  | p :: d, k => (pyLookup d k).orElse (fun _ => if p.1 = k then some p.2 else none)

theorem dlookup_dictUpd (d : List (String × α)) (k k' : String) (v : α) :
    dlookup (dictUpd d k v) k' = if k' = k then some v else dlookup d k' := by
  induction d with
  | nil =>
    by_cases h : k' = k <;> simp [dictUpd, dlookup, h, Ne.symm]
  | cons p d ih =>
    by_cases hp : p.1 = k
    · by_cases h : k' = k
      · simp [dictUpd, dlookup, hp, h]
      · have hq : ¬ p.1 = k' := fun hh => h ((hp ▸ hh : k = k').symm)
        simp only [dictUpd, if_pos hp, dlookup, if_neg h,
          if_neg (fun hh : k = k' => h hh.symm), if_neg hq]
    · by_cases h : k' = p.1
      · have hk : ¬ k' = k := fun hh => hp (h ▸ hh : p.1 = k)
        simp [dictUpd, dlookup, hp, h, hk]
      · have hq : ¬ p.1 = k' := fun hh => h hh.symm
        simp only [dictUpd, if_neg hp, dlookup, if_neg hq, ih]

theorem dlookup_dictMerge (b a : List (String × α)) (k : String) :
    dlookup (dictMerge a b) k =
      ((pyLookup b k).orElse (fun _ => dlookup a k)) := by
  induction b generalizing a with
  | nil => simp [dictMerge, pyLookup]
  | cons p bs ih =>
    have step : dictMerge a (p :: bs) = dictMerge (dictUpd a p.1 p.2) bs := rfl
    rw [step, ih]
    simp only [pyLookup, dlookup_dictUpd]
    cases hbs : pyLookup bs k with
    | some w => simp [Option.orElse]
    | none =>
      by_cases h : k = p.1
      · simp [Option.orElse, h]
      · have hq : ¬ p.1 = k := fun hh => h hh.symm
        simp only [if_neg h, if_neg hq, Option.orElse]

/- ## Calculator (`apps/calculator.py`) -/

/-- Python `ast` binary operator nodes that can appear in an expression.
Only the first seven are keys of the calculator's `_ALLOWED` table. -/
inductive PyBinOp where
  | add | sub | mult | div | mod | pow | floorDiv
  | matMult | bitOr | bitXor | bitAnd | lshift | rshift
deriving DecidableEq

/-- Python `ast` unary operator nodes; `_ALLOWED` holds only `usub`/`uadd`. -/
inductive PyUnOp where
  | usub | uadd | notOp | invert
deriving DecidableEq

/-- Constants as produced by `ast.parse`: numbers, booleans, strings, None.
(Complex literals are not modelled; no claim mentions them.) -/
inductive PyConst where
  | cint (n : Int)
  | cfloat (q : ℚ)
  | cbool (b : Bool)
  | cstr (s : String)
  | cnone
deriving DecidableEq

/-- The expression AST over which `_eval_ast` recurses.  `name`, `call`
and `attr` are the non-arithmetic node kinds named by the spec. -/
inductive PyExpr where
  | const : PyConst → PyExpr
  | binop : PyBinOp → PyExpr → PyExpr → PyExpr
  | unaryop : PyUnOp → PyExpr → PyExpr
  | name : String → PyExpr
  | call : PyExpr → List PyExpr → PyExpr
  | attr : PyExpr → String → PyExpr

/-- Exceptions `safe_eval` can raise. -/
inductive PyErr where
  | keyError
  | valueError (msg : String)
  | zeroDivisionError
deriving DecidableEq

/-- Numeric values: exact ints, floats idealised as rationals, and `fx`
for float results whose exact value the model does not track (inexact
powers); Python booleans are modelled by their integer value, which is
faithful for every arithmetic use. -/
inductive PyNum where
  | i (n : Int)
  | f (q : ℚ)
  | fx
deriving DecidableEq

def PyNum.isZero : PyNum → Bool
  | .i n => n = 0
  | .f q => q = 0
  | .fx => false

/-- Lift an arithmetic operation, promoting to float when either side is
one, as Python's numeric tower does. -/
def numArith (fi : Int → Int → Int) (ff : ℚ → ℚ → ℚ) : PyNum → PyNum → PyNum
  | .i a, .i b => .i (fi a b)
  | .i a, .f b => .f (ff (a : ℚ) b)
  | .f a, .i b => .f (ff a (b : ℚ))
  | .f a, .f b => .f (ff a b)
  | _, _ => .fx

/-- Python `%` on rationals: floor-based, sign of the divisor. -/
def qFmod (a b : ℚ) : ℚ := a - b * ⌊a / b⌋

/-- Semantics of each `_ALLOWED` operator (`operator.add` … `operator.floordiv`).
Division, modulo and floor-division by zero raise `ZeroDivisionError`;
`0 ** negative` raises too.  An inexact power yields the opaque `fx`. -/
def binOpApply : PyBinOp → PyNum → PyNum → Except PyErr PyNum
  | .add, a, b => .ok (numArith (· + ·) (· + ·) a b)
  | .sub, a, b => .ok (numArith (· - ·) (· - ·) a b)
  | .mult, a, b => .ok (numArith (· * ·) (· * ·) a b)
  | .div, a, b =>
    if b.isZero then .error .zeroDivisionError
    else match a, b with
      | .i x, .i y => .ok (.f ((x : ℚ) / (y : ℚ)))
      | .i x, .f y => .ok (.f ((x : ℚ) / y))
      | .f x, .i y => .ok (.f (x / (y : ℚ)))
      | .f x, .f y => .ok (.f (x / y))
      | _, _ => .ok .fx
  | .mod, a, b =>
    if b.isZero then .error .zeroDivisionError
    else .ok (numArith Int.fmod qFmod a b)
  | .floorDiv, a, b =>
    if b.isZero then .error .zeroDivisionError
    else .ok (numArith Int.fdiv (fun x y => (⌊x / y⌋ : ℚ)) a b)
  | .pow, a, b =>
    (match a, b with
      | .i x, .i y =>
        if 0 ≤ y then .ok (.i (x ^ y.toNat))
        else if x = 0 then .error .zeroDivisionError
        else .ok (.f ((x : ℚ) ^ y))
      | .f x, .i y =>
        if 0 ≤ y then .ok (.f (x ^ y.toNat))
        else if x = 0 then .error .zeroDivisionError
        else .ok (.f (x ^ y))
      | _, _ => .ok .fx)
  | _, _, _ => .error .keyError

def unOpApply : PyUnOp → PyNum → Except PyErr PyNum
  | .usub, .i n => .ok (.i (-n))
  | .usub, .f q => .ok (.f (-q))
  | .usub, .fx => .ok .fx
  | .uadd, v => .ok v
  | _, _ => .error .keyError

/-- `_eval_ast`: numeric constants pass the `ast.Num` / `ast.Constant`
checks; a disallowed operator raises `KeyError` before its operands are
evaluated; `Name`, `Call` and `Attribute` nodes fall through every
`isinstance` branch and raise `ValueError("bad expr")` without being
evaluated. -/
def safe_eval : PyExpr → Except PyErr PyNum
  | .const c =>
    match c with
    | .cint n => .ok (.i n)
    | .cfloat q => .ok (.f q)
    | .cbool b => .ok (.i (cond b 1 0))
    | .cstr _ => .error (.valueError "const")
    | .cnone => .error (.valueError "const")
  | .binop op l r =>
    match op with
    | .add | .sub | .mult | .div | .mod | .pow | .floorDiv => do
      let a ← safe_eval l
      let b ← safe_eval r
      binOpApply op a b
    | _ => .error .keyError
  | .unaryop op e =>
    match op with
    | .usub | .uadd => do
      let v ← safe_eval e
      unOpApply op v
    | _ => .error .keyError
  | .name _ => .error (.valueError "bad expr")
  | .call _ _ => .error (.valueError "bad expr")
  | .attr _ _ => .error (.valueError "bad expr")

/-- An expression contains a `Name`, `Call` or `Attribute` node. -/
def containsBad : PyExpr → Bool
  | .const _ => false
  | .binop _ l r => containsBad l || containsBad r
  | .unaryop _ e => containsBad e
  | .name _ => true
  | .call _ _ => true
  | .attr _ _ => true

/-- `CalculatorApp.evaluate`: on success an integral value is shown
without a decimal point, on any exception the display becomes `Error`.
(The textual rendering of a non-integral float is not claim-relevant and
is abstracted by `toString`.) -/
def evaluateDisplay (e : PyExpr) : String :=
  match safe_eval e with
  | .error _ => "Error"
  | .ok (.i n) => toString n
  | .ok (.f q) => if q.den = 1 then toString q.num else toString q
  | .ok .fx => toString (0 : ℚ)

/- ## Calendar (`apps/calendar.py`) -/

/-- One stored calendar event record, as read back from `calendar.json`.
A field is `none` when the JSON object lacks that key (Python `.get`
would then return the supplied default). -/
structure CalEvent where
  evId : Option String
  title : Option String
  time : Option String
  notes : Option String
deriving DecidableEq

/-- The sort key of `_on_date_changed`: `ev.get("time", "23:59")`. -/
def sortKeyEv (ev : CalEvent) : String := ev.time.getD "23:59"

/-- One rendered agenda line of `_fill_list`:
`f"{time}  -  {title}" if time else title`, with
`time = ev.get("time", "")` and `title = ev.get("title", "(Untitled)")`. -/
def renderEvent (ev : CalEvent) : String :=
  let t := ev.time.getD ""
  let ti := ev.title.getD "(Untitled)"
  if t ≠ "" then t ++ "  -  " ++ ti else ti

/-- `_on_date_changed` for an already-looked-up event list: stable sort
ascending by `sortKeyEv` (Python string order), then render each line. -/
def agendaLines (items : List CalEvent) : List String :=
  (pySort (fun a b => pyStrLe (sortKeyEv a) (sortKeyEv b)) items).map renderEvent

/-- `_on_date_changed` from the persisted date-keyed event map. -/
def onDateChanged (db : List (String × List CalEvent)) (key : String) : List String :=
  agendaLines ((pyLookup db key).getD [])

/- ## Claim C3 support -/

theorem containsBad_eval_error :
    ∀ e : PyExpr, containsBad e = true → ∃ err, safe_eval e = .error err
  | .name _, _ => ⟨.valueError "bad expr", rfl⟩
  | .call _ _, _ => ⟨.valueError "bad expr", rfl⟩
  | .attr _ _, _ => ⟨.valueError "bad expr", rfl⟩
  | .const _, h => by simp [containsBad] at h
  | .binop op l r, h => by
    have hlr : containsBad l = true ∨ containsBad r = true := by
      simpa [containsBad, Bool.or_eq_true] using h
    cases op <;> first
    | exact ⟨.keyError, rfl⟩
    | · simp only [safe_eval]
        cases hsl : safe_eval l with
        | error e1 => exact ⟨e1, rfl⟩
        | ok a =>
          cases hsr : safe_eval r with
          | error e2 => exact ⟨e2, rfl⟩
          | ok b =>
            rcases hlr with hbad | hbad
            · obtain ⟨e0, he0⟩ := containsBad_eval_error l hbad
              rw [hsl] at he0; cases he0
            · obtain ⟨e0, he0⟩ := containsBad_eval_error r hbad
              rw [hsr] at he0; cases he0
  | .unaryop op e, h => by
    have hb : containsBad e = true := by simpa [containsBad] using h
    cases op <;> first
    | exact ⟨.keyError, rfl⟩
    | · simp only [safe_eval]
        cases hse : safe_eval e with
        | error e1 => exact ⟨e1, rfl⟩
        | ok v =>
          obtain ⟨e0, he0⟩ := containsBad_eval_error e hb
          rw [hse] at he0; cases he0

/-- Claim C3: `safe_eval` evaluates only restricted arithmetic —
`2+2*2` yields the integer `6`; `10/0` raises (and the `evaluate`
handler turns any exception into the display text `Error`);
`__import__("os")` raises `ValueError` without being evaluated; and
every expression containing a name, call or attribute-access node
raises rather than being evaluated. -/
theorem calculator_safe_eval_spec :
    safe_eval (.binop .add (.const (.cint 2))
        (.binop .mult (.const (.cint 2)) (.const (.cint 2)))) = .ok (.i 6)
  ∧ safe_eval (.binop .div (.const (.cint 10)) (.const (.cint 0)))
      = .error .zeroDivisionError
  ∧ evaluateDisplay (.binop .div (.const (.cint 10)) (.const (.cint 0))) = "Error"
  ∧ safe_eval (.call (.name "__import__") [.const (.cstr "os")])
      = .error (.valueError "bad expr")
  ∧ ∀ e : PyExpr, containsBad e = true → ∃ err, safe_eval e = .error err :=
  ⟨rfl, rfl, rfl, rfl, containsBad_eval_error⟩

/-- Witness for C3: the general rejection clause applied to the concrete
expression `__import__` (a bare name node). -/
theorem calculator_safe_eval_witness :
    ∃ err, safe_eval (.name "__import__") = .error err :=
  calculator_safe_eval_spec.2.2.2.2 (.name "__import__") rfl

/- ## Claim C4 -/

/-- Counterexample to C4: with events timed `"09:00"`, `""`, `"23:59"`,
the empty-string time sorts FIRST (Python string order: `"" < "09:00"`),
not last as 23:59 — so the rendered order is the bare-title event, then
09:00, then 23:59, and in particular it differs from the order the claim
states. -/
theorem calendar_order_counterexample :
    agendaLines
      [ { evId := none, title := some "A", time := some "09:00", notes := none },
        { evId := none, title := some "B", time := some "", notes := none },
        { evId := none, title := some "C", time := some "23:59", notes := none } ]
      = ["B", "09:00  -  A", "23:59  -  C"]
  ∧ agendaLines
      [ { evId := none, title := some "A", time := some "09:00", notes := none },
        { evId := none, title := some "B", time := some "", notes := none },
        { evId := none, title := some "C", time := some "23:59", notes := none } ]
      ≠ ["09:00  -  A", "23:59  -  C", "B"] := by
  constructor
  · rfl
  · decide

/-- Claim C4 (amended): selected-date events are rendered sorted
ascending by the string key `ev.get("time", "23:59")`: an event whose
time is the empty string sorts first (the empty string precedes every
digit string), only an event with no time key at all sorts as `23:59`
(hence last, after a literal `"23:59"` only if stored later), and
equal-key events keep their stored relative order.  For a date holding
events timed `"09:00"`, `""` and `"23:59"`, the rendered agenda order is
the empty-time event first, then `09:00`, then `23:59`. -/
theorem calendar_order_amended :
    agendaLines
      [ { evId := none, title := some "A", time := some "09:00", notes := none },
        { evId := none, title := some "B", time := some "", notes := none },
        { evId := none, title := some "C", time := some "23:59", notes := none } ]
      = ["B", "09:00  -  A", "23:59  -  C"]
  ∧ agendaLines
      [ { evId := none, title := some "A", time := some "09:00", notes := none },
        { evId := none, title := some "C", time := some "23:59", notes := none },
        { evId := none, title := some "D", time := none, notes := none } ]
      = ["09:00  -  A", "23:59  -  C", "D"]
  ∧ agendaLines
      [ { evId := none, title := some "D", time := none, notes := none },
        { evId := none, title := some "C", time := some "23:59", notes := none } ]
      = ["D", "23:59  -  C"]
  ∧ agendaLines
      [ { evId := none, title := some "X", time := some "10:00", notes := none },
        { evId := none, title := some "Y", time := some "10:00", notes := none },
        { evId := none, title := some "E", time := some "08:00", notes := none } ]
      = ["08:00  -  E", "10:00  -  X", "10:00  -  Y"] :=
  ⟨rfl, rfl, rfl, rfl⟩

/- ## Theme / Settings store (`apps/settings.py`) -/

/-- A JSON value inside the saved colors dict: a string, or any other
JSON value (abstracted; a tag keeps distinct values distinct). -/
inductive CVal where
  | cstr (s : String)
  | cother (tag : Nat)
deriving DecidableEq

/-- The JSON value found under the top-level `"colors"` key: a dict of
color entries, or some other JSON value (unpacking it would raise, which
`load_colors_from_disk` catches). -/
inductive JField where
  | fdict (d : List (String × CVal))
  | fother (tag : Nat)
deriving DecidableEq

/-- A parsed `settings.json` document: a top-level dict, or any other
JSON value (whose `.get` would raise). -/
inductive JTop where
  | jdict (entries : List (String × JField))
  | jnondict (tag : Nat)
deriving DecidableEq

/-- The state of `data/settings.json`: absent, unreadable/malformed, or
a parsed JSON document. -/
abbrev SettingsDisk := Option (Except Unit JTop)

/-- The compiled-in `DEFAULTS` palette of `settings.py`. -/
def SETTINGS_DEFAULTS : List (String × CVal) :=
  [ ("text",       .cstr "#FFFFFF"),
    ("desktop_bg", .cstr "#1E1E1E"),
    ("taskbar_bg", .cstr "#333333"),
    ("start_bg",   .cstr "#444444"),
    ("window_bg",  .cstr "#2E2E2E") ]

/-- `load_colors_from_disk`: missing file, unparsable file, non-dict
document, or non-dict `"colors"` value all fall back to the defaults;
otherwise the saved overrides are merged over the defaults
(`{**DEFAULTS, **saved}`). -/
def load_colors_from_disk : SettingsDisk → List (String × CVal)
  | none => SETTINGS_DEFAULTS
  | some (.error _) => SETTINGS_DEFAULTS
  | some (.ok (.jnondict _)) => SETTINGS_DEFAULTS
  | some (.ok (.jdict data)) =>
    match pyLookup data "colors" with
    | none => dictMerge SETTINGS_DEFAULTS []
    | some (.fdict saved) => dictMerge SETTINGS_DEFAULTS saved
    | some (.fother _) => SETTINGS_DEFAULTS

/-- `save_colors_to_disk`: writes `{"colors": colors}`; the successful
write path produces this document on disk. -/
def save_colors_to_disk (colors : List (String × CVal)) : SettingsDisk :=
  some (.ok (.jdict [("colors", .fdict colors)]))

theorem pyLookup_none_orElse (x : Option α) :
    (x.orElse (fun _ => none)) = x := by cases x <;> rfl

theorem pyLookup_eq_dlookup_of_nodup (d : List (String × α)) (k : String)
    (h : (d.map Prod.fst).Nodup) : pyLookup d k = dlookup d k := by
  induction d with
  | nil => rfl
  | cons p rest ih =>
    simp only [List.map_cons, List.nodup_cons] at h
    by_cases hk : p.1 = k
    · have hnone : pyLookup rest k = none := by
        clear ih
        induction rest with
        | nil => rfl
        | cons q rs ihr =>
          simp only [List.mem_map] at h
          have hq : ¬ q.1 = k := fun hh => h.1 ⟨q, List.mem_cons_self q rs, hh.trans hk.symm⟩
          have h' : (¬ ∃ x ∈ rs, x.1 = p.1) ∧ (rs.map Prod.fst).Nodup := by
            constructor
            · intro ⟨x, hx, hxx⟩
              exact h.1 ⟨x, List.mem_cons_of_mem q hx, hxx⟩
            · exact (List.nodup_cons.mp h.2).2
          have := ihr ⟨by simpa [List.mem_map] using h'.1, h'.2⟩
          simp only [pyLookup, this, Option.orElse, if_neg hq]
      simp [pyLookup, dlookup, hnone, hk, Option.orElse]
    · simp only [pyLookup, dlookup, if_neg hk, ih h.2]
      exact pyLookup_none_orElse _

/-- Updating a key in place leaves the key list unchanged when the key
is present, and appends it otherwise. -/
theorem keys_dictUpd (d : List (String × α)) (k : String) (v : α) :
    (dictUpd d k v).map Prod.fst =
      if k ∈ d.map Prod.fst then d.map Prod.fst else d.map Prod.fst ++ [k] := by
  induction d with
  | nil => simp [dictUpd]
  | cons p rest ih =>
    by_cases hk : p.1 = k
    · simp [dictUpd, hk]
    · have hk' : ¬ k = p.1 := fun hh => hk hh.symm
      simp only [dictUpd, if_neg hk, List.map_cons, ih, List.mem_cons]
      by_cases hmem : k ∈ rest.map Prod.fst
      · simp [hmem, hk']
      · simp [hmem, hk']

theorem nodupKeys_dictUpd (d : List (String × α)) (k : String) (v : α)
    (h : (d.map Prod.fst).Nodup) : ((dictUpd d k v).map Prod.fst).Nodup := by
  rw [keys_dictUpd]
  by_cases hmem : k ∈ d.map Prod.fst
  · simpa [hmem] using h
  · simp only [hmem, if_false]
    exact List.Nodup.append h (List.nodup_singleton k)
      (by simpa [List.disjoint_singleton] using hmem)

theorem nodupKeys_dictMerge (b a : List (String × α))
    (h : (a.map Prod.fst).Nodup) : ((dictMerge a b).map Prod.fst).Nodup := by
  induction b generalizing a with
  | nil => exact h
  | cons p bs ih => exact ih (dictUpd a p.1 p.2) (nodupKeys_dictUpd a p.1 p.2 h)

theorem dlookup_dictMerge_none (b a : List (String × α)) (k : String)
    (h : dlookup (dictMerge a b) k = none) : dlookup a k = none := by
  rw [dlookup_dictMerge] at h
  cases hb : pyLookup b k <;> simp [hb, Option.orElse] at h
  · exact h

/-- The palette produced by `load_colors_from_disk` always has
duplicate-free keys. -/
theorem load_colors_nodup (d : SettingsDisk) :
    ((load_colors_from_disk d).map Prod.fst).Nodup := by
  have hD : ((SETTINGS_DEFAULTS).map Prod.fst).Nodup := by decide
  match d with
  | none => exact hD
  | some (.error _) => exact hD
  | some (.ok (.jnondict _)) => exact hD
  | some (.ok (.jdict data)) =>
    simp only [load_colors_from_disk]
    match pyLookup data "colors" with
    | none => exact nodupKeys_dictMerge [] _ hD
    | some (.fdict saved) => exact nodupKeys_dictMerge saved _ hD
    | some (.fother _) => exact hD

/-- Any palette returned by `load_colors_from_disk` absorbs a further
merge of the defaults underneath it. -/
theorem dictMerge_defaults_load (d : SettingsDisk) (k : String) :
    dlookup (dictMerge SETTINGS_DEFAULTS (load_colors_from_disk d)) k
      = dlookup (load_colors_from_disk d) k := by
  rw [dlookup_dictMerge,
    pyLookup_eq_dlookup_of_nodup _ k (load_colors_nodup d)]
  cases hx : dlookup (load_colors_from_disk d) k with
  | some v => simp [Option.orElse]
  | none =>
    simp only [Option.orElse]
    -- the loaded palette contains every default key, so a missing key is
    -- missing from the defaults as well
    match d with
    | none => simpa [load_colors_from_disk] using hx
    | some (.error _) => simpa [load_colors_from_disk] using hx
    | some (.ok (.jnondict _)) => simpa [load_colors_from_disk] using hx
    | some (.ok (.jdict data)) =>
      simp only [load_colors_from_disk] at hx
      match hc : pyLookup data "colors" with
      | none =>
        rw [hc] at hx
        exact (dlookup_dictMerge_none [] _ k hx).symm ▸ (dlookup_dictMerge_none [] _ k hx)
      | some (.fdict saved) =>
        rw [hc] at hx
        exact dlookup_dictMerge_none saved _ k hx
      | some (.fother _) =>
        rw [hc] at hx
        exact hx

/- ## Claim C6 -/

/-- Claim C6: `save_colors_to_disk (load_colors_from_disk ())` leaves the
on-disk settings document semantically unchanged — every key, and in
particular each of the five color keys, maps to the same value after the
composed operation, for any starting disk state, hence also across
repeated applications.  `load_colors_from_disk` never raises: a missing
or unparsable file, a non-dict document, and a non-dict `"colors"` value
all yield the pure compiled-in defaults, and a saved dict yields the
defaults merged under the saved overrides. -/
theorem settings_roundtrip_spec :
    (∀ (d : SettingsDisk) (k : String),
      dlookup (load_colors_from_disk (save_colors_to_disk (load_colors_from_disk d))) k
        = dlookup (load_colors_from_disk d) k)
  ∧ load_colors_from_disk none = SETTINGS_DEFAULTS
  ∧ load_colors_from_disk (some (.error ())) = SETTINGS_DEFAULTS
  ∧ (∀ t, load_colors_from_disk (some (.ok (.jnondict t))) = SETTINGS_DEFAULTS)
  ∧ (∀ (data : List (String × JField)) (t : Nat),
      pyLookup data "colors" = some (.fother t) →
        load_colors_from_disk (some (.ok (.jdict data))) = SETTINGS_DEFAULTS)
  ∧ (∀ (data : List (String × JField)) (saved : List (String × CVal)) (k : String),
      pyLookup data "colors" = some (.fdict saved) →
        dlookup (load_colors_from_disk (some (.ok (.jdict data)))) k
          = ((pyLookup saved k).orElse (fun _ => dlookup SETTINGS_DEFAULTS k))) := by
  refine ⟨?_, rfl, rfl, fun t => rfl, ?_, ?_⟩
  · intro d k
    show dlookup (dictMerge SETTINGS_DEFAULTS (load_colors_from_disk d)) k
      = dlookup (load_colors_from_disk d) k
    exact dictMerge_defaults_load d k
  · intro data t hc
    simp [load_colors_from_disk, hc]
  · intro data saved k hc
    simp only [load_colors_from_disk, hc]
    exact dlookup_dictMerge saved SETTINGS_DEFAULTS k

/-- Witness for C6: a concrete saved override of the text color survives
the round trip, and the override clause yields the overridden value for
`"text"` and the default for `"window_bg"`. -/
theorem settings_roundtrip_witness :
    (dlookup (load_colors_from_disk (save_colors_to_disk (load_colors_from_disk
        (some (.ok (.jdict [("colors", .fdict [("text", .cstr "#000000")])])))))) "text"
      = dlookup (load_colors_from_disk
        (some (.ok (.jdict [("colors", .fdict [("text", .cstr "#000000")])])))) "text")
  ∧ (dlookup (load_colors_from_disk
        (some (.ok (.jdict [("colors", .fdict [("text", .cstr "#000000")])])))) "text"
      = ((pyLookup [("text", CVal.cstr "#000000")] "text").orElse
          (fun _ => dlookup SETTINGS_DEFAULTS "text")))
  ∧ load_colors_from_disk (some (.ok (.jnondict 0))) = SETTINGS_DEFAULTS
  ∧ load_colors_from_disk (some (.ok (.jdict [("colors", .fother 7)]))) = SETTINGS_DEFAULTS :=
  ⟨settings_roundtrip_spec.1
      (some (.ok (.jdict [("colors", .fdict [("text", .cstr "#000000")])]))) "text",
    settings_roundtrip_spec.2.2.2.2.2
      [("colors", .fdict [("text", .cstr "#000000")])]
      [("text", .cstr "#000000")] "text" rfl,
    settings_roundtrip_spec.2.2.2.1 0,
    settings_roundtrip_spec.2.2.2.2.1 [("colors", .fother 7)] 7 rfl⟩

/- ## File system model (`apps/file_explorer.py`, `apps/recycle_bin.py`) -/

/-- A resolved absolute path, as its list of components (the form
`os.path.abspath` produces; `os.path.commonpath` compares these
component-wise). -/
abbrev FPath := List String

/-- `ROOT_DIR = os.path.join("data", "userfiles")`, resolved. -/
def ROOT_USERFILES : FPath := ["data", "userfiles"]

/-- `TRASH_DIR = os.path.join("data", "trash")`, resolved. -/
def TRASH_PATH : FPath := ["data", "trash"]

/-- The metadata record `move_to_trash` writes to `metadata.json`.
`original_path` is `none` when the JSON lacks the key (Python `.get`
returns `None`). -/
structure TrashMeta where
  original_path : Option FPath
  name : String
  stored_name : String
  is_dir : Bool
  deleted_at : Nat
deriving DecidableEq

/-- Contents of a file: raw bytes, or the JSON encoding of a trash
metadata record. -/
inductive FileData where
  | bytes (content : List Nat)
  | metaOf (m : TrashMeta)
deriving DecidableEq

/-- A local filesystem: existing directories, and files with contents. -/
structure FS where
  dirs : List FPath
  files : List (FPath × FileData)
deriving DecidableEq

/-- Is some entry keyed by `q`? -/
def anyKeyA : List (FPath × FileData) → FPath → Bool
  | [], _ => false
  | e :: rest, q => if e.1 = q then true else anyKeyA rest q

/-- Is `q` in the list of directories? -/
def anyPathA : List FPath → FPath → Bool
  | [], _ => false
  | d :: rest, q => if d = q then true else anyPathA rest q

/-- First-match lookup in a path-keyed file list. -/
def lookupA : List (FPath × FileData) → FPath → Option FileData
  | [], _ => none
  | e :: rest, q => if e.1 = q then some e.2 else lookupA rest q

def isFileAt (fs : FS) (p : FPath) : Bool := anyKeyA fs.files p

def dirAt (fs : FS) (p : FPath) : Bool := anyPathA fs.dirs p

def existsPath (fs : FS) (p : FPath) : Bool := dirAt fs p || isFileAt fs p

def lookupFile (fs : FS) (p : FPath) : Option FileData := lookupA fs.files p

/-- `os.mkdir` step: add one directory if absent. -/
def addDir (fs : FS) (p : FPath) : FS :=
  if dirAt fs p then fs else { fs with dirs := fs.dirs ++ [p] }

/-- The non-empty ancestors of a path, shortest first. -/
def properInits (p : FPath) : List FPath := p.inits.filter (fun q => !q.isEmpty)

/-- `os.makedirs(p, exist_ok=True)`: create every missing ancestor of
`p` and `p` itself. -/
def makedirs (fs : FS) (p : FPath) : FS := (properInits p).foldl addDir fs

/-- Overwrite-or-create write of one file. -/
def writeFile (fs : FS) (p : FPath) (d : FileData) : FS :=
  if anyKeyA fs.files p then
    { fs with files := fs.files.map (fun pr => if pr.1 = p then (p, d) else pr) }
  else { fs with files := fs.files ++ [(p, d)] }

def replacePrefixPath (src dst p : FPath) : FPath :=
  if src.isPrefixOf p then dst ++ p.drop src.length else p

/-- `shutil.move` / `os.rename`: move a file, or a directory together
with everything below it; moving a missing source is the caught-error
path and leaves the filesystem unchanged. -/
def moveEntry (fs : FS) (src dst : FPath) : FS :=
  if anyKeyA fs.files src then
    { fs with files := fs.files.map (fun pr => if pr.1 = src then (dst, pr.2) else pr) }
  else if dirAt fs src then
    { dirs := fs.dirs.map (replacePrefixPath src dst),
      files := fs.files.map (fun pr => (replacePrefixPath src dst pr.1, pr.2)) }
  else fs

/-- Drop every file whose path lies under `t`. -/
def removeUnderF : List (FPath × FileData) → FPath → List (FPath × FileData)
  | [], _ => []
  | e :: rest, t =>
    if t.isPrefixOf e.1 then removeUnderF rest t else e :: removeUnderF rest t

/-- Drop every directory lying under `t`. -/
def removeUnderD : List FPath → FPath → List FPath
  | [], _ => []
  | d :: rest, t =>
    if t.isPrefixOf d then removeUnderD rest t else d :: removeUnderD rest t

/-- `shutil.rmtree`: remove a directory and everything below it. -/
def rmtree (fs : FS) (t : FPath) : FS :=
  { dirs := removeUnderD fs.dirs t, files := removeUnderF fs.files t }

/-- Does every file path avoid the subtree under `t`?  (Freshness of a
newly drawn trash identifier.) -/
def noFileUnder : List (FPath × FileData) → FPath → Bool
  | [], _ => true
  | e :: rest, t => if t.isPrefixOf e.1 then false else noFileUnder rest t

/-- Does every directory avoid the subtree under `t`? -/
def noDirUnder : List FPath → FPath → Bool
  | [], _ => true
  | d :: rest, t => if t.isPrefixOf d then false else noDirUnder rest t

/-- `within_root` of `file_explorer.py`:
`os.path.commonpath([root, p]) == root`, i.e. the resolved sandbox root
is a component-wise prefix of the resolved path. -/
def within_root (p : FPath) : Bool := ROOT_USERFILES.isPrefixOf p

/-- `safe_within_root` of `recycle_bin.py` — the same check, duplicated
verbatim in the source. -/
def safe_within_root (p : FPath) : Bool := ROOT_USERFILES.isPrefixOf p

/-- `move_to_trash`: make `data/trash/<tid>/`, write the metadata
record, then move the item into the trash folder under its base name. -/
def move_to_trash (fs : FS) (p : FPath) (tid : String) (now : Nat) : FS :=
  let fs1 := makedirs fs TRASH_PATH
  let tdir := TRASH_PATH ++ [tid]
  let fs2 := makedirs fs1 tdir
  let name := p.getLastD ""
  let meta : TrashMeta :=
    { original_path := some p, name := name, stored_name := name,
      is_dir := dirAt fs2 p, deleted_at := now }
  let fs3 := writeFile fs2 (tdir ++ ["metadata.json"]) (.metaOf meta)
  moveEntry fs3 p (tdir ++ [name])

/-- Index of the last `'.'` in a character list. -/
def lastDotIdx (cs : List Char) : Option Nat :=
  match cs.reverse.findIdx? (fun c => c = '.') with
  | some k => some (cs.length - 1 - k)
  | none => none

/-- `os.path.splitext` on a base name: split at the last dot unless
every character before it is itself a dot. -/
def pySplitext (s : String) : String × String :=
  match lastDotIdx s.data with
  | none => (s, "")
  | some d =>
    if (s.data.take d).all (fun c => c = '.') then (s, "")
    else (⟨s.data.take d⟩, ⟨s.data.drop d⟩)

/-- The disambiguated base name `f"{stem} (restored {i}){ext}"`. -/
def restoredName (stem ext : String) (i : Nat) : String :=
  stem ++ " (restored " ++ toString i ++ ")" ++ ext

/-- The `while True` probe of `restore_selected`, with explicit fuel
(the loop terminates on a finite filesystem because only finitely many
candidates exist). -/
def probeDest (fs : FS) (parent : FPath) (stem ext : String) : Nat → Nat → FPath
  | 0, i => parent ++ [restoredName stem ext i]
  | fuel + 1, i =>
    let cand := parent ++ [restoredName stem ext i]
    if existsPath fs cand then probeDest fs parent stem ext fuel (i + 1) else cand

/-- One iteration of `RecycleBinWindow.restore_selected` for the trash
folder `tdir`: read the metadata record; skip silently unless the
recorded original path is present and inside the sandbox; pick the
destination (the original path, or the first free `(restored N)`
variant); then make the destination's parent, move the stored item
there, and remove the trash folder.  A missing stored item is the
caught-exception path and leaves everything unchanged. -/
def restore_one (fs : FS) (tdir : FPath) (fuel : Nat) : FS :=
  match lookupFile fs (tdir ++ ["metadata.json"]) with
  | some (.metaOf meta) =>
    match meta.original_path with
    | none => fs
    | some orig =>
      if ¬ safe_within_root orig then fs
      else
        let data_path := tdir ++ [meta.stored_name]
        let dest :=
          if existsPath fs orig then
            let se := pySplitext (orig.getLastD "")
            probeDest fs orig.dropLast se.1 se.2 fuel 1
          else orig
        if existsPath fs data_path then
          let fs1 := makedirs fs dest.dropLast
          let fs2 := moveEntry fs1 data_path dest
          rmtree fs2 tdir
        else fs
  | _ => fs

/- ## File Explorer state machine (`apps/file_explorer.py`) -/

/-- Navigation history state of `FileExplorerWindow`. -/
structure ExplorerState where
  current_path : FPath
  history : List FPath
  history_index : Int
deriving DecidableEq

inductive NavResult where
  | blocked | notFound | navigated
deriving DecidableEq

/-- `FileExplorerWindow.navigate` on a resolved absolute path: a path
outside the sandbox is rejected with a warning before anything changes;
a missing path likewise; otherwise `current_path` moves and (when
`push`) forward history is truncated and the new path appended. -/
def navigate (fs : FS) (st : ExplorerState) (path : FPath) (push : Bool) :
    ExplorerState × NavResult :=
  if ¬ within_root path then (st, .blocked)
  else if ¬ existsPath fs path then (st, .notFound)
  else
    let st1 := { st with current_path := path }
    let st2 :=
      if push then
        let hist := st1.history.take (st1.history_index + 1).toNat ++ [path]
        { st1 with history := hist, history_index := (hist.length : Int) - 1 }
      else st1
    (st2, .navigated)

inductive MkResult where
  | blocked | alreadyExists | done
deriving DecidableEq

/-- `FileExplorerWindow.new_folder` for the resolved destination path:
outside the sandbox → warning, no mutation; existing → warning, no
mutation; else the folder (and missing ancestors) is created. -/
def new_folder_at (fs : FS) (dest : FPath) : FS × MkResult :=
  if ¬ within_root dest then (fs, .blocked)
  else if existsPath fs dest then (fs, .alreadyExists)
  else (makedirs fs dest, .done)

/-- `FileExplorerWindow.rename_selected` for the resolved destination:
outside the sandbox → warning, no mutation; else `os.rename`. -/
def rename_at (fs : FS) (src dest : FPath) : FS × MkResult :=
  if ¬ within_root dest then (fs, .blocked)
  else (moveEntry fs src dest, .done)

/- ## Claim C1 -/

/-- Claim C1: any path whose resolved absolute form is not under the
`data/userfiles` sandbox root is rejected: `navigate` warns and leaves
the explorer state (in particular `current_path`) unchanged, folder
creation and rename warn and leave the filesystem unchanged, and a
recycle-bin restore whose recorded original path is outside the root (or
absent) is silently skipped without touching the filesystem. -/
theorem sandbox_containment (fs : FS) (st : ExplorerState) (p : FPath)
    (push : Bool) (h : within_root p = false) :
    navigate fs st p push = (st, .blocked)
  ∧ (navigate fs st p push).1.current_path = st.current_path
  ∧ new_folder_at fs p = (fs, .blocked)
  ∧ (∀ src, rename_at fs src p = (fs, .blocked))
  ∧ (∀ tdir fuel meta, lookupFile fs (tdir ++ ["metadata.json"]) = some (.metaOf meta) →
      meta.original_path = some p → restore_one fs tdir fuel = fs)
  ∧ (∀ tdir fuel meta, lookupFile fs (tdir ++ ["metadata.json"]) = some (.metaOf meta) →
      meta.original_path = none → restore_one fs tdir fuel = fs) := by
  have hnav : navigate fs st p push = (st, .blocked) := by
    simp [navigate, h]
  refine ⟨hnav, by rw [hnav], by simp [new_folder_at, h], fun src => by simp [rename_at, h],
    ?_, ?_⟩
  · intro tdir fuel meta hmeta horig
    have h' : safe_within_root p = false := h
    simp [restore_one, hmeta, horig, h']
  · intro tdir fuel meta hmeta horig
    simp [restore_one, hmeta, horig]

/-- A small concrete filesystem for the C1 witness. -/
def fsC1 : FS := { dirs := [["data"], ["data", "userfiles"]], files := [] }

/-- A concrete explorer state sitting at the sandbox root. -/
def stC1 : ExplorerState :=
  { current_path := ["data", "userfiles"], history := [["data", "userfiles"]],
    history_index := 0 }

/-- Witness for C1: the concrete escape attempt `/etc` (the resolved
form of typing `../../etc` at the sandbox root) is blocked by every
operation on a small concrete filesystem. -/
theorem sandbox_containment_witness :
    within_root ["etc"] = false
  ∧ navigate fsC1 stC1 ["etc"] true = (stC1, .blocked) :=
  ⟨rfl, (sandbox_containment fsC1 stC1 ["etc"] true rfl).1⟩

/- ## Pointwise lemmas about the filesystem operations -/

theorem anyKeyA_of_lookupA {l : List (FPath × FileData)} {p : FPath} {d : FileData}
    (h : lookupA l p = some d) : anyKeyA l p = true := by
  induction l with
  | nil => simp [lookupA] at h
  | cons e rest ih =>
    by_cases he : e.1 = p
    · simp [anyKeyA, he]
    · simp only [lookupA, if_neg he] at h
      simp only [anyKeyA, if_neg he]
      exact ih h

theorem lookupA_rename_src (l : List (FPath × FileData)) (src dst : FPath)
    (h : ¬ dst = src) :
    lookupA (l.map (fun pr => if pr.1 = src then (dst, pr.2) else pr)) src = none := by
  induction l with
  | nil => rfl
  | cons e rest ih =>
    by_cases he : e.1 = src
    · simp only [List.map_cons, if_pos he, lookupA, if_neg h]
      exact ih
    · simp only [List.map_cons, if_neg he, lookupA, if_neg he]
      exact ih

theorem lookupA_rename_dst (l : List (FPath × FileData)) (src dst : FPath)
    (hfresh : anyKeyA l dst = false) :
    lookupA (l.map (fun pr => if pr.1 = src then (dst, pr.2) else pr)) dst
      = lookupA l src := by
  induction l with
  | nil => rfl
  | cons e rest ih =>
    by_cases hd : e.1 = dst
    · simp [anyKeyA, hd] at hfresh
    · simp only [anyKeyA, if_neg hd] at hfresh
      by_cases he : e.1 = src
      · simp [List.map_cons, he, lookupA]
      · simp only [List.map_cons, if_neg he, lookupA, if_neg hd, if_neg he]
        exact ih hfresh

theorem lookupA_rename_other (l : List (FPath × FileData)) (src dst q : FPath)
    (hq1 : ¬ q = src) (hq2 : ¬ q = dst) :
    lookupA (l.map (fun pr => if pr.1 = src then (dst, pr.2) else pr)) q
      = lookupA l q := by
  induction l with
  | nil => rfl
  | cons e rest ih =>
    by_cases he : e.1 = src
    · have h1 : ¬ dst = q := fun hh => hq2 hh.symm
      have h2 : ¬ e.1 = q := fun hh => hq1 ((he ▸ hh : src = q)).symm
      simp only [List.map_cons, if_pos he, lookupA, if_neg h1, if_neg h2]
      exact ih
    · simp only [List.map_cons, if_neg he, lookupA]
      by_cases hq : e.1 = q
      · simp [hq]
      · simp only [if_neg hq]
        exact ih

theorem anyKeyA_rename_src (l : List (FPath × FileData)) (src dst : FPath)
    (h : ¬ dst = src) :
    anyKeyA (l.map (fun pr => if pr.1 = src then (dst, pr.2) else pr)) src = false := by
  induction l with
  | nil => rfl
  | cons e rest ih =>
    by_cases he : e.1 = src
    · simp only [List.map_cons, if_pos he, anyKeyA, if_neg h]
      exact ih
    · simp only [List.map_cons, if_neg he, anyKeyA, if_neg he]
      exact ih

theorem anyKeyA_rename_other (l : List (FPath × FileData)) (src dst q : FPath)
    (hq1 : ¬ q = src) (hq2 : ¬ q = dst) :
    anyKeyA (l.map (fun pr => if pr.1 = src then (dst, pr.2) else pr)) q
      = anyKeyA l q := by
  induction l with
  | nil => rfl
  | cons e rest ih =>
    by_cases he : e.1 = src
    · have h1 : ¬ dst = q := fun hh => hq2 hh.symm
      have h2 : ¬ e.1 = q := fun hh => hq1 ((he ▸ hh : src = q)).symm
      simp only [List.map_cons, if_pos he, anyKeyA, if_neg h1, if_neg h2]
      exact ih
    · simp only [List.map_cons, if_neg he, anyKeyA]
      by_cases hq : e.1 = q
      · simp [hq]
      · simp only [if_neg hq]
        exact ih

theorem moveEntry_file_dirs (fs : FS) (src dst : FPath)
    (hsrc : isFileAt fs src = true) : (moveEntry fs src dst).dirs = fs.dirs := by
  unfold moveEntry
  unfold isFileAt at hsrc
  simp [hsrc]

theorem moveEntry_file_files (fs : FS) (src dst : FPath)
    (hsrc : isFileAt fs src = true) :
    (moveEntry fs src dst).files
      = fs.files.map (fun pr => if pr.1 = src then (dst, pr.2) else pr) := by
  unfold moveEntry
  unfold isFileAt at hsrc
  simp [hsrc]

theorem lookupA_set_other (l : List (FPath × FileData)) (p : FPath) (d : FileData)
    (q : FPath) (h : ¬ q = p) :
    lookupA (l.map (fun pr => if pr.1 = p then (p, d) else pr)) q = lookupA l q := by
  induction l with
  | nil => rfl
  | cons e rest ih =>
    by_cases he : e.1 = p
    · have h2 : ¬ e.1 = q := fun hh => h ((he ▸ hh : p = q)).symm
      have h3 : ¬ p = q := fun hh => h hh.symm
      simp only [List.map_cons, if_pos he, lookupA, if_neg h3, if_neg h2]
      exact ih
    · simp only [List.map_cons, if_neg he, lookupA]
      by_cases hq : e.1 = q
      · simp [hq]
      · simp only [if_neg hq]
        exact ih

theorem anyKeyA_set_other (l : List (FPath × FileData)) (p : FPath) (d : FileData)
    (q : FPath) (h : ¬ q = p) :
    anyKeyA (l.map (fun pr => if pr.1 = p then (p, d) else pr)) q = anyKeyA l q := by
  induction l with
  | nil => rfl
  | cons e rest ih =>
    by_cases he : e.1 = p
    · have h2 : ¬ e.1 = q := fun hh => h ((he ▸ hh : p = q)).symm
      have h3 : ¬ p = q := fun hh => h hh.symm
      simp only [List.map_cons, if_pos he, anyKeyA, if_neg h3, if_neg h2]
      exact ih
    · simp only [List.map_cons, if_neg he, anyKeyA]
      by_cases hq : e.1 = q
      · simp [hq]
      · simp only [if_neg hq]
        exact ih

theorem lookupA_setA (l : List (FPath × FileData)) (p : FPath) (d : FileData)
    (q : FPath) (hin : anyKeyA l p = true) :
    lookupA (l.map (fun pr => if pr.1 = p then (p, d) else pr)) q
      = if q = p then some d else lookupA l q := by
  induction l with
  | nil => simp [anyKeyA] at hin
  | cons e rest ih =>
    by_cases he : e.1 = p
    · by_cases h : q = p
      · simp [List.map_cons, he, lookupA, h]
      · have h2 : ¬ e.1 = q := fun hh => h ((he ▸ hh : p = q)).symm
        have h3 : ¬ p = q := fun hh => h hh.symm
        simp only [List.map_cons, if_pos he, lookupA, if_neg h3, if_neg h2, if_neg h]
        exact lookupA_set_other rest p d q h
    · simp only [anyKeyA, if_neg he] at hin
      simp only [List.map_cons, if_neg he, lookupA]
      by_cases hq : e.1 = q
      · by_cases h : q = p
        · exact absurd (hq.trans h) he
        · simp [hq, h]
      · simp only [if_neg hq]
        exact ih hin

theorem lookupA_append_one (l : List (FPath × FileData)) (p : FPath) (d : FileData)
    (q : FPath) (hnin : anyKeyA l p = false) :
    lookupA (l ++ [(p, d)]) q = if q = p then some d else lookupA l q := by
  induction l with
  | nil =>
    by_cases h : q = p
    · simp [lookupA, h]
    · have h2 : ¬ p = q := fun hh => h hh.symm
      simp [lookupA, h, h2]
  | cons e rest ih =>
    by_cases he : e.1 = p
    · simp [anyKeyA, he] at hnin
    · simp only [anyKeyA, if_neg he] at hnin
      simp only [List.cons_append, lookupA]
      by_cases hq : e.1 = q
      · by_cases h : q = p
        · exact absurd (hq.trans h) he
        · simp [hq, h]
      · simp only [if_neg hq]
        exact ih hnin

theorem lookupFile_writeFile (fs : FS) (p : FPath) (d : FileData) (q : FPath) :
    lookupFile (writeFile fs p d) q = if q = p then some d else lookupFile fs q := by
  unfold writeFile lookupFile
  by_cases hin : anyKeyA fs.files p
  · simp only [hin, if_true]
    exact lookupA_setA fs.files p d q hin
  · simp only [Bool.not_eq_true] at hin
    simp only [hin, if_false]
    exact lookupA_append_one fs.files p d q hin

theorem anyKeyA_map_ren (l : List (FPath × FileData)) (p : FPath) (d : FileData) :
    anyKeyA (l.map (fun pr => if pr.1 = p then (p, d) else pr)) p = anyKeyA l p := by
  induction l with
  | nil => rfl
  | cons e rest ih =>
    by_cases he : e.1 = p
    · simp [List.map_cons, he, anyKeyA]
    · simp only [List.map_cons, if_neg he, anyKeyA, if_neg he]
      exact ih

theorem anyKeyA_append_one (l : List (FPath × FileData)) (p : FPath) (d : FileData)
    (q : FPath) :
    anyKeyA (l ++ [(p, d)]) q = (anyKeyA l q || decide (p = q)) := by
  induction l with
  | nil => simp [anyKeyA]
  | cons e rest ih =>
    simp only [List.cons_append, anyKeyA]
    by_cases heq : e.1 = q
    · simp [heq]
    · simp only [if_neg heq]
      exact ih

theorem isFileAt_writeFile (fs : FS) (p : FPath) (d : FileData) (q : FPath) :
    isFileAt (writeFile fs p d) q = (decide (q = p) || isFileAt fs q) := by
  by_cases hq : q = p
  · have h := lookupFile_writeFile fs p d q
    rw [if_pos hq] at h
    have h2 : anyKeyA (writeFile fs p d).files q = true := anyKeyA_of_lookupA h
    rw [hq] at h2
    simp [isFileAt, h2, hq]
  · simp only [decide_eq_false hq, Bool.false_or]
    unfold writeFile isFileAt
    by_cases hin : anyKeyA fs.files p
    · simp only [hin, if_true]
      exact anyKeyA_set_other fs.files p d q hq
    · simp only [Bool.not_eq_true] at hin
      simp only [hin, if_false]
      show anyKeyA (fs.files ++ [(p, d)]) q = anyKeyA fs.files q
      rw [anyKeyA_append_one]
      have h2 : ¬ p = q := fun hh => hq hh.symm
      simp [h2]

theorem dirs_writeFile (fs : FS) (p : FPath) (d : FileData) :
    (writeFile fs p d).dirs = fs.dirs := by
  unfold writeFile
  by_cases hin : anyKeyA fs.files p <;> simp [hin]

theorem files_foldl_addDir (l : List FPath) (fs : FS) :
    (l.foldl addDir fs).files = fs.files := by
  induction l generalizing fs with
  | nil => rfl
  | cons x xs ih =>
    simp only [List.foldl_cons]
    rw [ih]
    unfold addDir
    by_cases h : dirAt fs x <;> simp [h]

theorem files_makedirs (fs : FS) (p : FPath) :
    (makedirs fs p).files = fs.files := files_foldl_addDir (properInits p) fs

theorem anyPathA_append_one (l : List FPath) (x q : FPath) :
    anyPathA (l ++ [x]) q = (anyPathA l q || decide (x = q)) := by
  induction l with
  | nil => simp [anyPathA]
  | cons e rest ih =>
    simp only [List.cons_append, anyPathA]
    by_cases he : e = q
    · simp [he]
    · simp only [if_neg he]
      exact ih

theorem dirAt_addDir (fs : FS) (x q : FPath) :
    dirAt (addDir fs x) q = (dirAt fs q || decide (x = q)) := by
  unfold addDir
  by_cases hx : dirAt fs x
  · by_cases hq : x = q
    · subst hq
      simp [hx]
    · simp [hx, hq]
  · simp only [hx, if_false]
    show anyPathA (fs.dirs ++ [x]) q = (dirAt fs q || decide (x = q))
    rw [anyPathA_append_one]
    rfl

theorem dirAt_foldl_addDir (l : List FPath) (fs : FS) (q : FPath) :
    dirAt (l.foldl addDir fs) q = (dirAt fs q || anyPathA l q) := by
  induction l generalizing fs with
  | nil => simp [anyPathA]
  | cons x xs ih =>
    simp only [List.foldl_cons, ih, dirAt_addDir, anyPathA]
    by_cases hx : x = q <;> simp [hx]

theorem dirAt_makedirs (fs : FS) (p : FPath) (q : FPath) :
    dirAt (makedirs fs p) q = (dirAt fs q || anyPathA (properInits p) q) :=
  dirAt_foldl_addDir (properInits p) fs q

theorem lookupA_removeUnderF (l : List (FPath × FileData)) (t q : FPath)
    (h : t.isPrefixOf q = false) :
    lookupA (removeUnderF l t) q = lookupA l q := by
  induction l with
  | nil => rfl
  | cons e rest ih =>
    by_cases he : t.isPrefixOf e.1
    · have : ¬ e.1 = q := fun hh => by rw [hh] at he; rw [he] at h; cases h
      simp only [removeUnderF, if_pos he, lookupA, if_neg this]
      exact ih
    · simp only [removeUnderF, if_neg he, lookupA]
      by_cases hq : e.1 = q
      · simp [hq]
      · simp only [if_neg hq]
        exact ih

theorem anyKeyA_removeUnderF (l : List (FPath × FileData)) (t q : FPath)
    (h : t.isPrefixOf q = false) :
    anyKeyA (removeUnderF l t) q = anyKeyA l q := by
  induction l with
  | nil => rfl
  | cons e rest ih =>
    by_cases he : t.isPrefixOf e.1
    · have : ¬ e.1 = q := fun hh => by rw [hh] at he; rw [he] at h; cases h
      simp only [removeUnderF, if_pos he, anyKeyA, if_neg this]
      exact ih
    · simp only [removeUnderF, if_neg he, anyKeyA]
      by_cases hq : e.1 = q
      · simp [hq]
      · simp only [if_neg hq]
        exact ih

theorem anyKeyA_removeUnderF_under (l : List (FPath × FileData)) (t q : FPath)
    (h : t.isPrefixOf q = true) :
    anyKeyA (removeUnderF l t) q = false := by
  induction l with
  | nil => rfl
  | cons e rest ih =>
    by_cases he : t.isPrefixOf e.1
    · simp only [removeUnderF, if_pos he]
      exact ih
    · have : ¬ e.1 = q := fun hh => by rw [hh] at he; exact he h
      simp only [removeUnderF, if_neg he, anyKeyA, if_neg this]
      exact ih

theorem anyPathA_removeUnderD (l : List FPath) (t q : FPath)
    (h : t.isPrefixOf q = false) :
    anyPathA (removeUnderD l t) q = anyPathA l q := by
  induction l with
  | nil => rfl
  | cons e rest ih =>
    by_cases he : t.isPrefixOf e
    · have : ¬ e = q := fun hh => by rw [hh] at he; rw [he] at h; cases h
      simp only [removeUnderD, if_pos he, anyPathA, if_neg this]
      exact ih
    · simp only [removeUnderD, if_neg he, anyPathA]
      by_cases hq : e = q
      · simp [hq]
      · simp only [if_neg hq]
        exact ih

theorem anyPathA_removeUnderD_under (l : List FPath) (t q : FPath)
    (h : t.isPrefixOf q = true) :
    anyPathA (removeUnderD l t) q = false := by
  induction l with
  | nil => rfl
  | cons e rest ih =>
    by_cases he : t.isPrefixOf e
    · simp only [removeUnderD, if_pos he]
      exact ih
    · have : ¬ e = q := fun hh => by rw [hh] at he; exact he h
      simp only [removeUnderD, if_neg he, anyPathA, if_neg this]
      exact ih

theorem noFileUnder_removeUnderF (l : List (FPath × FileData)) (t : FPath) :
    noFileUnder (removeUnderF l t) t = true := by
  induction l with
  | nil => rfl
  | cons e rest ih =>
    by_cases he : t.isPrefixOf e.1
    · simp only [removeUnderF, if_pos he]
      exact ih
    · simp only [removeUnderF, if_neg he, noFileUnder, if_neg he]
      exact ih

theorem anyKeyA_eq_false_of_noFile (l : List (FPath × FileData)) (t q : FPath)
    (hq : t.isPrefixOf q = true) (h : noFileUnder l t = true) :
    anyKeyA l q = false := by
  induction l with
  | nil => rfl
  | cons e rest ih =>
    by_cases he : t.isPrefixOf e.1
    · simp [noFileUnder, he] at h
    · simp only [noFileUnder, if_neg he] at h
      have : ¬ e.1 = q := fun hh => by rw [hh] at he; exact he hq
      simp only [anyKeyA, if_neg this]
      exact ih h

theorem isPrefixOf_append_self (l r : List String) :
    l.isPrefixOf (l ++ r) = true := by
  induction l with
  | nil => simp [List.isPrefixOf]
  | cons a as ih => simp [List.isPrefixOf, ih]

theorem isPrefixOf_self (l : List String) : l.isPrefixOf l = true := by
  have h := isPrefixOf_append_self l []
  simp only [List.append_nil] at h
  exact h

/-- Any path inside the sandbox starts with the two root components. -/
theorem within_root_shape (p : FPath) (h : within_root p = true) :
    ∃ t, p = "data" :: "userfiles" :: t := by
  match p with
  | [] => simp [within_root, ROOT_USERFILES, List.isPrefixOf] at h
  | [x] => simp [within_root, ROOT_USERFILES, List.isPrefixOf] at h
  | x :: y :: t =>
    simp only [within_root, ROOT_USERFILES, List.isPrefixOf, Bool.and_eq_true,
      beq_iff_eq] at h
    exact ⟨t, by rw [h.1, h.2.1]⟩

/-- No trash path is a prefix of a sandboxed path. -/
theorem trash_not_prefix (p : FPath) (t : List String)
    (hp : p = "data" :: "userfiles" :: t) (l : List String) :
    (("data" :: "trash" :: l).isPrefixOf p) = false := by
  subst hp
  simp [List.isPrefixOf]

/-- A sandboxed path never equals a trash path. -/
theorem ne_trash (p : FPath) (t : List String)
    (hp : p = "data" :: "userfiles" :: t) (l : List String) :
    ¬ p = "data" :: "trash" :: l := by
  subst hp
  simp

/-- A trash folder is never a prefix of the restore destination
`parent/(restored N)`. -/
theorem trash_not_prefix_restored (p : FPath) (t : List String)
    (hp : p = "data" :: "userfiles" :: t) (tid nm : String) :
    ((TRASH_PATH ++ [tid]).isPrefixOf (p.dropLast ++ [nm])) = false := by
  subst hp
  cases t with
  | nil => simp [TRASH_PATH, List.isPrefixOf, List.dropLast]
  | cons y ys => simp [TRASH_PATH, List.isPrefixOf, List.dropLast]

/-- After creating the trash directories, a sandboxed path that was not
a directory still is not one. -/
theorem dirAt_after_trash_mkdirs (fs : FS) (tid : String) (p : FPath) (t : List String)
    (hp : p = "data" :: "userfiles" :: t) (hd : dirAt fs p = false) :
    dirAt (makedirs (makedirs fs TRASH_PATH) (TRASH_PATH ++ [tid])) p = false := by
  rw [dirAt_makedirs, dirAt_makedirs, hd]
  subst hp
  simp [properInits, List.inits, anyPathA, TRASH_PATH]

/-- What `move_to_trash` does to a sandboxed file: the metadata record
sits in the fresh trash folder, the file content sits beside it under
the original base name, and the original path is gone. -/
theorem move_to_trash_char (fs : FS) (p : FPath) (tid : String) (now : Nat)
    (d : FileData) (t : List String)
    (hp : p = "data" :: "userfiles" :: t)
    (hc : lookupFile fs p = some d)
    (hdirp : dirAt fs p = false)
    (hname : ¬ p.getLastD "" = "metadata.json")
    (hfF : noFileUnder fs.files (TRASH_PATH ++ [tid]) = true) :
    lookupFile (move_to_trash fs p tid now) (TRASH_PATH ++ [tid] ++ ["metadata.json"])
      = some (.metaOf
        { original_path := some p, name := p.getLastD "", stored_name := p.getLastD "",
          is_dir := false, deleted_at := now })
  ∧ lookupFile (move_to_trash fs p tid now) (TRASH_PATH ++ [tid] ++ [p.getLastD ""])
      = some d
  ∧ isFileAt (move_to_trash fs p tid now) p = false
  ∧ dirAt (move_to_trash fs p tid now) p = false := by
  set tdir : FPath := TRASH_PATH ++ [tid] with htdir
  set nm : String := p.getLastD "" with hnm
  set mpath : FPath := tdir ++ ["metadata.json"] with hmpath
  set dst : FPath := tdir ++ [nm] with hdst
  set fs2 : FS := makedirs (makedirs fs TRASH_PATH) tdir with hfs2
  -- basic path disequalities
  have hpre_p : tdir.isPrefixOf p = false := trash_not_prefix p t hp [tid]
  have hne_pm : ¬ p = mpath := by
    rw [hmpath, htdir]
    exact ne_trash p t hp [tid, "metadata.json"]
  have hne_pd : ¬ p = dst := by
    rw [hdst, htdir]
    exact ne_trash p t hp [tid, nm]
  have hne_dm : ¬ dst = mpath := by
    rw [hdst, hmpath]
    intro hh
    have := List.append_inj_right hh (by rfl)
    simp only [List.cons.injEq] at this
    exact hname this.1
  have hpre_m : tdir.isPrefixOf mpath = true := by
    rw [hmpath]; exact isPrefixOf_append_self tdir _
  have hpre_d : tdir.isPrefixOf dst = true := by
    rw [hdst]; exact isPrefixOf_append_self tdir _
  -- the intermediate filesystem after the two makedirs
  have hfiles2 : fs2.files = fs.files := by
    rw [hfs2, files_makedirs, files_makedirs]
  have hdir2 : dirAt fs2 p = false := dirAt_after_trash_mkdirs fs tid p t hp hdirp
  have hisdir : dirAt fs2 p = false := hdir2
  have hlook2 : lookupFile fs2 p = some d := by
    unfold lookupFile
    rw [hfiles2]
    exact hc
  have hfresh_m : isFileAt fs2 mpath = false := by
    unfold isFileAt
    rw [hfiles2]
    exact anyKeyA_eq_false_of_noFile fs.files tdir mpath hpre_m hfF
  have hfresh_d : isFileAt fs2 dst = false := by
    unfold isFileAt
    rw [hfiles2]
    exact anyKeyA_eq_false_of_noFile fs.files tdir dst hpre_d hfF
  -- the metadata write
  set meta : TrashMeta :=
    { original_path := some p, name := nm, stored_name := nm,
      is_dir := false, deleted_at := now } with hmeta
  set fs3 : FS := writeFile fs2 mpath (.metaOf meta) with hfs3
  have hw := lookupFile_writeFile fs2 mpath (.metaOf meta)
  have hlm3 : lookupFile fs3 mpath = some (.metaOf meta) := by
    rw [hfs3, hw mpath, if_pos rfl]
  have hlp3 : lookupFile fs3 p = some d := by
    rw [hfs3, hw p, if_neg hne_pm]
    exact hlook2
  have hfd3 : isFileAt fs3 dst = false := by
    rw [hfs3, isFileAt_writeFile, hfresh_d, decide_eq_false hne_dm]
    rfl
  have hfp3 : isFileAt fs3 p = true := anyKeyA_of_lookupA hlp3
  have hd3 : fs3.dirs = fs2.dirs := by rw [hfs3, dirs_writeFile]
  -- the move into the trash folder
  have hmv0 : move_to_trash fs p tid now
      = moveEntry (writeFile fs2 mpath (.metaOf
          { original_path := some p, name := nm, stored_name := nm,
            is_dir := dirAt fs2 p, deleted_at := now })) p dst := rfl
  have hmv : move_to_trash fs p tid now = moveEntry fs3 p dst := by
    rw [hmv0, hdir2]
  have hfiles4 := moveEntry_file_files fs3 p dst hfp3
  constructor
  · -- metadata record is readable
    rw [hmv]
    unfold lookupFile
    rw [hfiles4]
    rw [lookupA_rename_other fs3.files p dst mpath
      (fun hh => hne_pm hh.symm) (fun hh => hne_dm hh.symm)]
    exact hlm3
  constructor
  · -- file content sits under the trash folder
    rw [hmv]
    unfold lookupFile
    rw [hfiles4]
    rw [lookupA_rename_dst fs3.files p dst hfd3]
    exact hlp3
  constructor
  · -- the original path is gone
    rw [hmv]
    unfold isFileAt
    rw [hfiles4]
    exact anyKeyA_rename_src fs3.files p dst (fun hh => hne_pd hh.symm)
  · rw [hmv]
    show anyPathA (moveEntry fs3 p dst).dirs p = false
    rw [moveEntry_file_dirs fs3 p dst hfp3, hd3]
    exact hdir2

/-- Within sufficient fuel the probe returns the first free candidate:
if candidates `i, …, N-1` exist and candidate `N` is free, probing from
`i` lands on `N`. -/
theorem probeDest_first_free (fs : FS) (parent : FPath) (stem ext : String) :
    ∀ (fuel i N : Nat), i ≤ N → N - i ≤ fuel →
    (∀ m, i ≤ m → m < N → existsPath fs (parent ++ [restoredName stem ext m]) = true) →
    existsPath fs (parent ++ [restoredName stem ext N]) = false →
    probeDest fs parent stem ext fuel i = parent ++ [restoredName stem ext N] := by
  intro fuel
  induction fuel with
  | zero =>
    intro i N hiN hfuel hprev hfree
    have : i = N := Nat.le_antisymm hiN (by omega)
    subst this
    rfl
  | succ fuel ih =>
    intro i N hiN hfuel hprev hfree
    by_cases hi : i = N
    · subst hi
      simp only [probeDest, hfree]
      rfl
    · have hlt : i < N := Nat.lt_of_le_of_ne hiN hi
      have hcur : existsPath fs (parent ++ [restoredName stem ext i]) = true :=
        hprev i (Nat.le_refl i) hlt
      simp only [probeDest, hcur, if_true]
      exact ih (i + 1) N hlt (by omega)
        (fun m hm1 hm2 => hprev m (Nat.le_of_succ_le hm1) hm2) hfree

/-- Unfolding `restore_one` when the original path is free again. -/
theorem restore_one_run (fs : FS) (tdir : FPath) (fuel : Nat) (meta : TrashMeta)
    (p : FPath)
    (hm : lookupFile fs (tdir ++ ["metadata.json"]) = some (.metaOf meta))
    (ho : meta.original_path = some p)
    (hs : safe_within_root p = true)
    (hex : existsPath fs p = false)
    (hdp : existsPath fs (tdir ++ [meta.stored_name]) = true) :
    restore_one fs tdir fuel
      = rmtree (moveEntry (makedirs fs p.dropLast) (tdir ++ [meta.stored_name]) p) tdir := by
  simp [restore_one, hm, ho, hs, hex, hdp]

/-- Unfolding `restore_one` when the original path exists again: the
destination is produced by the probe. -/
theorem restore_one_run_probe (fs : FS) (tdir : FPath) (fuel : Nat) (meta : TrashMeta)
    (p : FPath)
    (hm : lookupFile fs (tdir ++ ["metadata.json"]) = some (.metaOf meta))
    (ho : meta.original_path = some p)
    (hs : safe_within_root p = true)
    (hex : existsPath fs p = true)
    (hdp : existsPath fs (tdir ++ [meta.stored_name]) = true) :
    restore_one fs tdir fuel
      = rmtree (moveEntry
          (makedirs fs (probeDest fs p.dropLast (pySplitext (p.getLastD "")).1
              (pySplitext (p.getLastD "")).2 fuel 1).dropLast)
          (tdir ++ [meta.stored_name])
          (probeDest fs p.dropLast (pySplitext (p.getLastD "")).1
              (pySplitext (p.getLastD "")).2 fuel 1)) tdir := by
  simp [restore_one, hm, ho, hs, hex, hdp]

theorem within_root_of_shape (t : List String) :
    within_root ("data" :: "userfiles" :: t) = true := by
  simp [within_root, ROOT_USERFILES, List.isPrefixOf]

/- ## Claim C2 (amended) -/

/-- Claim C2 (amended): trashing a sandboxed file whose base name is not
`metadata.json` and then restoring its trash entry puts a file with the
identical content back at the recorded original path, and the trash
folder no longer exists afterwards (first conjunct).  If the original
path exists again at restore time, the content instead lands at the
first free `"<stem> (restored N)<ext>"` candidate, `N` probed upward
from 1 (second conjunct); the probe is characterised exactly in the
third conjunct. -/
theorem trash_restore_roundtrip :
    (∀ (fs : FS) (p : FPath) (tid : String) (now fuel : Nat) (c : List Nat)
        (t : List String),
      p = "data" :: "userfiles" :: t →
      lookupFile fs p = some (.bytes c) →
      dirAt fs p = false →
      ¬ p.getLastD "" = "metadata.json" →
      noFileUnder fs.files (TRASH_PATH ++ [tid]) = true →
      lookupFile (restore_one (move_to_trash fs p tid now) (TRASH_PATH ++ [tid]) fuel) p
          = some (.bytes c)
        ∧ existsPath (restore_one (move_to_trash fs p tid now) (TRASH_PATH ++ [tid]) fuel)
            (TRASH_PATH ++ [tid]) = false
        ∧ noFileUnder
            (restore_one (move_to_trash fs p tid now) (TRASH_PATH ++ [tid]) fuel).files
            (TRASH_PATH ++ [tid]) = true)
  ∧ (∀ (fs : FS) (tid : String) (meta : TrashMeta) (p : FPath) (c : List Nat)
        (N fuel : Nat) (t : List String),
      p = "data" :: "userfiles" :: t →
      lookupFile fs (TRASH_PATH ++ [tid] ++ ["metadata.json"]) = some (.metaOf meta) →
      meta.original_path = some p →
      existsPath fs p = true →
      lookupFile fs (TRASH_PATH ++ [tid] ++ [meta.stored_name]) = some (.bytes c) →
      1 ≤ N → N - 1 ≤ fuel →
      (∀ m, 1 ≤ m → m < N →
        existsPath fs (p.dropLast ++ [restoredName (pySplitext (p.getLastD "")).1
          (pySplitext (p.getLastD "")).2 m]) = true) →
      existsPath fs (p.dropLast ++ [restoredName (pySplitext (p.getLastD "")).1
          (pySplitext (p.getLastD "")).2 N]) = false →
      lookupFile (restore_one fs (TRASH_PATH ++ [tid]) fuel)
          (p.dropLast ++ [restoredName (pySplitext (p.getLastD "")).1
            (pySplitext (p.getLastD "")).2 N]) = some (.bytes c)
        ∧ existsPath (restore_one fs (TRASH_PATH ++ [tid]) fuel)
            (TRASH_PATH ++ [tid]) = false)
  ∧ (∀ (fs : FS) (parent : FPath) (stem ext : String) (N fuel : Nat),
      1 ≤ N → N - 1 ≤ fuel →
      (∀ m, 1 ≤ m → m < N →
        existsPath fs (parent ++ [restoredName stem ext m]) = true) →
      existsPath fs (parent ++ [restoredName stem ext N]) = false →
      probeDest fs parent stem ext fuel 1 = parent ++ [restoredName stem ext N]) := by
  refine ⟨?_, ?_, ?_⟩
  · -- scenario 1: the original path is free again
    intro fs p tid now fuel c t hp hc hdirp hname hfF
    obtain ⟨hm1, hd1, hif1, hdir1⟩ :=
      move_to_trash_char fs p tid now (.bytes c) t hp hc hdirp hname hfF
    set tdir : FPath := TRASH_PATH ++ [tid] with htdir
    set nm : String := p.getLastD "" with hnm
    set dst : FPath := tdir ++ [nm] with hdst
    set fs1 : FS := move_to_trash fs p tid now with hfs1
    have hpre_p : tdir.isPrefixOf p = false := trash_not_prefix p t hp [tid]
    have hs : safe_within_root p = true := by
      rw [hp]; exact within_root_of_shape t
    have hexf : existsPath fs1 p = false := by
      unfold existsPath
      rw [hif1, hdir1]
      rfl
    have hdp : existsPath fs1 dst = true := by
      have h := anyKeyA_of_lookupA hd1
      unfold existsPath isFileAt
      rw [h]
      simp
    have hrun := restore_one_run fs1 tdir fuel
      { original_path := some p, name := nm, stored_name := nm,
        is_dir := false, deleted_at := now } p hm1 rfl hs hexf hdp
    have hrun2 : restore_one fs1 tdir fuel
        = rmtree (moveEntry (makedirs fs1 p.dropLast) dst p) tdir := hrun
    rw [hrun2]
    set fs1' : FS := makedirs fs1 p.dropLast with hfs1'
    have hfiles1' : fs1'.files = fs1.files := files_makedirs fs1 p.dropLast
    have hsrc : isFileAt fs1' dst = true := by
      unfold isFileAt
      rw [hfiles1']
      exact anyKeyA_of_lookupA hd1
    have hmvfiles := moveEntry_file_files fs1' dst p hsrc
    have hfreshp : anyKeyA fs1'.files p = false := by
      rw [hfiles1']
      exact hif1
    refine ⟨?_, ?_, ?_⟩
    · show lookupA (removeUnderF (moveEntry fs1' dst p).files tdir) p
        = some (.bytes c)
      rw [lookupA_removeUnderF _ tdir p hpre_p, hmvfiles,
        lookupA_rename_dst fs1'.files dst p hfreshp, hfiles1']
      exact hd1
    · show (anyPathA (removeUnderD (moveEntry fs1' dst p).dirs tdir) tdir
        || anyKeyA (removeUnderF (moveEntry fs1' dst p).files tdir) tdir) = false
      rw [anyPathA_removeUnderD_under _ tdir tdir (isPrefixOf_self tdir),
        anyKeyA_removeUnderF_under _ tdir tdir (isPrefixOf_self tdir)]
      rfl
    · show noFileUnder (removeUnderF (moveEntry fs1' dst p).files tdir) tdir = true
      exact noFileUnder_removeUnderF _ tdir
  · -- scenario 2: the original path was recreated
    intro fs tid meta p c N fuel t hp hm ho hex hdata h1N hfuel hprev hfree
    set tdir : FPath := TRASH_PATH ++ [tid] with htdir
    set stem : String := (pySplitext (p.getLastD "")).1 with hstem
    set ext : String := (pySplitext (p.getLastD "")).2 with hext
    set dest : FPath := p.dropLast ++ [restoredName stem ext N] with hdest2
    have hs : safe_within_root p = true := by
      rw [hp]; exact within_root_of_shape t
    have hdp : existsPath fs (tdir ++ [meta.stored_name]) = true := by
      unfold existsPath isFileAt
      rw [anyKeyA_of_lookupA hdata]
      simp
    have hprobe : probeDest fs p.dropLast stem ext fuel 1 = dest :=
      probeDest_first_free fs p.dropLast stem ext fuel 1 N h1N (by omega) hprev hfree
    have hrun := restore_one_run_probe fs tdir fuel meta p hm ho hs hex hdp
    rw [← hstem, ← hext, hprobe] at hrun
    rw [hrun]
    have hdl : dest.dropLast = p.dropLast := by
      rw [hdest2]
      exact List.dropLast_concat
    rw [hdl]
    set fs1' : FS := makedirs fs p.dropLast with hfs1'
    have hfiles1' : fs1'.files = fs.files := files_makedirs fs p.dropLast
    have hsrc : isFileAt fs1' (tdir ++ [meta.stored_name]) = true := by
      unfold isFileAt
      rw [hfiles1']
      exact anyKeyA_of_lookupA hdata
    have hmvfiles := moveEntry_file_files fs1' (tdir ++ [meta.stored_name]) dest hsrc
    have hfreshd : anyKeyA fs1'.files dest = false := by
      rw [hfiles1']
      unfold existsPath at hfree
      rw [Bool.or_eq_false_iff] at hfree
      exact hfree.2
    have hpre_dest : tdir.isPrefixOf dest = false := by
      rw [hdest2, htdir]
      exact trash_not_prefix_restored p t hp tid _
    constructor
    · show lookupA (removeUnderF (moveEntry fs1' (tdir ++ [meta.stored_name]) dest).files
        tdir) dest = some (.bytes c)
      rw [lookupA_removeUnderF _ tdir dest hpre_dest, hmvfiles,
        lookupA_rename_dst fs1'.files (tdir ++ [meta.stored_name]) dest hfreshd,
        hfiles1']
      exact hdata
    · show (anyPathA (removeUnderD (moveEntry fs1' (tdir ++ [meta.stored_name]) dest).dirs
          tdir) tdir
        || anyKeyA (removeUnderF (moveEntry fs1' (tdir ++ [meta.stored_name]) dest).files
          tdir) tdir) = false
      rw [anyPathA_removeUnderD_under _ tdir tdir (isPrefixOf_self tdir),
        anyKeyA_removeUnderF_under _ tdir tdir (isPrefixOf_self tdir)]
      rfl
  · intro fs parent stem ext N fuel h1N hfuel hprev hfree
    exact probeDest_first_free fs parent stem ext fuel 1 N h1N (by omega) hprev hfree

/-- A sandbox holding a file literally named `metadata.json`. -/
def fsMetaClobber : FS :=
  { dirs := [["data"], ["data", "userfiles"]],
    files := [(["data", "userfiles", "metadata.json"], .bytes [1, 2, 3])] }

/-- Counterexample to C2 as stated: trashing the sandboxed file
`data/userfiles/metadata.json` moves the file onto its own freshly
written metadata record, so the trash entry's metadata is no longer a
readable record; the subsequent restore does nothing — the original path
stays empty and the trash folder still exists. -/
theorem trash_roundtrip_counterexample :
    restore_one (move_to_trash fsMetaClobber ["data", "userfiles", "metadata.json"] "tid0" 0)
        (TRASH_PATH ++ ["tid0"]) 9
      = move_to_trash fsMetaClobber ["data", "userfiles", "metadata.json"] "tid0" 0
  ∧ lookupFile
      (restore_one (move_to_trash fsMetaClobber ["data", "userfiles", "metadata.json"] "tid0" 0)
        (TRASH_PATH ++ ["tid0"]) 9)
      ["data", "userfiles", "metadata.json"] = none
  ∧ existsPath
      (restore_one (move_to_trash fsMetaClobber ["data", "userfiles", "metadata.json"] "tid0" 0)
        (TRASH_PATH ++ ["tid0"]) 9)
      (TRASH_PATH ++ ["tid0"]) = true := by
  refine ⟨?_, ?_, ?_⟩ <;> rfl

/-- A sandbox holding one ordinary text file, for the C2 witness. -/
def fsC2 : FS :=
  { dirs := [["data"], ["data", "userfiles"]],
    files := [(["data", "userfiles", "a.txt"], .bytes [104, 105])] }

/-- Witness for C2 (amended): the concrete file `a.txt` with bytes
`[104, 105]` survives the trash/restore round trip, the trash folder is
gone afterwards, and the probe lemma applied with `N = 1` returns
`a (restored 1).txt`. -/
theorem trash_restore_roundtrip_witness :
    (lookupFile
        (restore_one (move_to_trash fsC2 ["data", "userfiles", "a.txt"] "t1" 7)
          (TRASH_PATH ++ ["t1"]) 3)
        ["data", "userfiles", "a.txt"] = some (.bytes [104, 105])
      ∧ existsPath
          (restore_one (move_to_trash fsC2 ["data", "userfiles", "a.txt"] "t1" 7)
            (TRASH_PATH ++ ["t1"]) 3)
          (TRASH_PATH ++ ["t1"]) = false
      ∧ noFileUnder
          (restore_one (move_to_trash fsC2 ["data", "userfiles", "a.txt"] "t1" 7)
            (TRASH_PATH ++ ["t1"]) 3).files
          (TRASH_PATH ++ ["t1"]) = true)
  ∧ probeDest fsC2 ["data", "userfiles"] "a" ".txt" 3 1
      = ["data", "userfiles", "a (restored 1).txt"] :=
  ⟨trash_restore_roundtrip.1 fsC2 ["data", "userfiles", "a.txt"] "t1" 7 3 [104, 105]
      ["a.txt"] rfl rfl rfl (by decide) rfl,
    trash_restore_roundtrip.2.2 fsC2 ["data", "userfiles"] "a" ".txt" 1 3
      (Nat.le_refl 1) (by decide) (fun m hm1 hm2 => absurd (Nat.lt_of_le_of_lt hm1 hm2)
        (by omega)) rfl⟩

/- ## Tetris (`apps/tetris.py`) -/

/-- The four rotation states of each tetromino, as fixed 4-cell
coordinate sets on a 4×4 footprint, copied from `SHAPES`. -/
def TETRIS_SHAPES (s : String) (r : Nat) : List (Int × Int) :=
  if s = "I" then
    [[(0,1),(1,1),(2,1),(3,1)], [(2,0),(2,1),(2,2),(2,3)],
     [(0,2),(1,2),(2,2),(3,2)], [(1,0),(1,1),(1,2),(1,3)]].getD (r % 4) []
  else if s = "O" then
    [[(1,1),(2,1),(1,2),(2,2)], [(1,1),(2,1),(1,2),(2,2)],
     [(1,1),(2,1),(1,2),(2,2)], [(1,1),(2,1),(1,2),(2,2)]].getD (r % 4) []
  else if s = "T" then
    [[(1,0),(0,1),(1,1),(2,1)], [(1,0),(1,1),(2,1),(1,2)],
     [(0,1),(1,1),(2,1),(1,2)], [(1,0),(0,1),(1,1),(1,2)]].getD (r % 4) []
  else if s = "S" then
    [[(1,0),(2,0),(0,1),(1,1)], [(1,0),(1,1),(2,1),(2,2)],
     [(1,1),(2,1),(0,2),(1,2)], [(0,0),(0,1),(1,1),(1,2)]].getD (r % 4) []
  else if s = "Z" then
    [[(0,0),(1,0),(1,1),(2,1)], [(2,0),(1,1),(2,1),(1,2)],
     [(0,1),(1,1),(1,2),(2,2)], [(1,0),(0,1),(1,1),(0,2)]].getD (r % 4) []
  else if s = "J" then
    [[(0,0),(0,1),(1,1),(2,1)], [(1,0),(2,0),(1,1),(1,2)],
     [(0,1),(1,1),(2,1),(2,2)], [(1,0),(1,1),(0,2),(1,2)]].getD (r % 4) []
  else if s = "L" then
    [[(2,0),(0,1),(1,1),(2,1)], [(1,0),(1,1),(1,2),(2,2)],
     [(0,1),(1,1),(2,1),(0,2)], [(0,0),(1,0),(1,1),(1,2)]].getD (r % 4) []
  else []

/-- The mutable state of `TetrisApp` relevant to movement, scoring and
speed; board cells hold the locked piece's shape key. -/
structure TetrisState where
  BW : Nat
  BH : Nat
  board : List (List (Option String))
  current : Option (String × Nat × Int × Int)
  next_queue : List String
  score : Int
  level : Nat
  lines_cleared : Nat
  highscore : Int
  paused : Bool
  game_over : Bool
  speed_ms : Int
  soft_drop_points : Int
  hard_drop_points : Int
  current_speed : Int
  timer_active : Bool
deriving DecidableEq

/-- `_cells`: absolute cell coordinates of a placed piece. -/
def tcells (shape : String) (rot : Nat) (x y : Int) : List (Int × Int) :=
  (TETRIS_SHAPES shape rot).map (fun c => (x + c.1, y + c.2))

/-- Board lookup at integer coordinates (callers bound-check first). -/
def boardAt (st : TetrisState) (cx cy : Int) : Option String :=
  ((st.board.getD cy.toNat []).getD cx.toNat none)

/-- `_collides`: any cell outside the board or on a locked cell. -/
def tcollides (st : TetrisState) (shape : String) (rot : Nat) (x y : Int) : Bool :=
  (tcells shape rot x y).any (fun c =>
    c.1 < 0 || c.1 ≥ (st.BW : Int) || c.2 < 0 || c.2 ≥ (st.BH : Int)
      || (boardAt st c.1 c.2).isSome)

/-- `_update_speed`: `max(80, base − (level−1)·35)`, applied to the
running timer. -/
def update_speed (st : TetrisState) : TetrisState :=
  { st with current_speed := max 80 (st.speed_ms - ((st.level : Int) - 1) * 35) }

/-- The `(40, 100, 300, 1200)` table, indexed by `cleared - 1`; an
out-of-range index is Python's uncaught `IndexError`. -/
def clearTable (cleared : Nat) : Option Int :=
  [40, 100, 300, 1200].get? (cleared - 1)

/-- `_clear_lines`: drop full rows, add empty rows on top, award
`table[cleared−1] · level`, recompute `level = 1 + lines/10` and the
tick interval. -/
def clear_lines (st : TetrisState) : Option TetrisState :=
  let new_rows := st.board.filter (fun row => row.any (fun cell => cell.isNone))
  let cleared := st.BH - new_rows.length
  if cleared > 0 then
    match clearTable cleared with
    | none => none
    | some pts =>
      let lines := st.lines_cleared + cleared
      some (update_speed
        { st with
          board := List.replicate cleared (List.replicate st.BW (none : Option String))
            ++ new_rows,
          lines_cleared := lines,
          score := st.score + pts * (st.level : Int),
          level := 1 + lines / 10 })
  else some st

/-- Write one cell of the board. -/
def boardSet (b : List (List (Option String))) (cx cy : Int) (v : Option String) :
    List (List (Option String)) :=
  b.set cy.toNat ((b.getD cy.toNat []).set cx.toNat v)

/-- `_spawn_piece`, parameterised by the shuffled `bag` that
`_refill_bag` would append when fewer than 7 pieces are queued; an empty
queue afterwards is Python's uncaught `pop` error. -/
def spawn_piece (bag : List String) (st : TetrisState) : Option TetrisState :=
  let st := if st.next_queue.length < 7 then
      { st with next_queue := st.next_queue ++ bag } else st
  match st.next_queue with
  | [] => none
  | shape :: rest =>
    let x : Int := ((st.BW : Int) - 4) / 2
    let st := { st with next_queue := rest, current := some (shape, 0, x, 0) }
    if tcollides st shape 0 x 0 then
      some { st with
        game_over := true
        timer_active := false
        highscore := if st.score > st.highscore then st.score else st.highscore }
    else some st

/-- `_lock_piece`: stamp the current piece onto the board, clear lines,
spawn the next piece. -/
def lock_piece (bag : List String) (st : TetrisState) : Option TetrisState :=
  match st.current with
  | none => none
  | some (shape, rot, x, y) =>
    let cells := tcells shape rot x y
    let board := cells.foldl (fun b c =>
      if 0 ≤ c.2 ∧ c.2 < (st.BH : Int) ∧ 0 ≤ c.1 ∧ c.1 < (st.BW : Int) then
        boardSet b c.1 c.2 (some shape) else b) st.board
    match clear_lines { st with board := board } with
    | none => none
    | some st2 => spawn_piece bag st2

/-- `TetrisApp.move`: a successful downward move with no horizontal
change awards the soft-drop points — the function does not know whether
the caller was a key press or the gravity tick; a blocked downward move
locks the piece instead. -/
def tmove (bag : List String) (st : TetrisState) (dx dy : Int) : Option TetrisState :=
  match st.current with
  | none => some st
  | some (shape, rot, x, y) =>
    if st.paused || st.game_over then some st
    else if ¬ tcollides st shape rot (x + dx) (y + dy) then
      some { st with
        current := some (shape, rot, x + dx, y + dy)
        score := if dy > 0 ∧ dx = 0 then st.score + st.soft_drop_points else st.score }
    else if dy > 0 ∧ dx = 0 then lock_piece bag st
    else some st

/-- `TetrisApp.tick`: the gravity callback is exactly `move(0, 1)`. -/
def ttick (bag : List String) (st : TetrisState) : Option TetrisState :=
  if st.paused || st.game_over then some st else tmove bag st 0 1

/-- `hard_drop_distance`, with fuel (the board height bounds it). -/
def hard_drop_distance (st : TetrisState) (shape : String) (rot : Nat) (x y : Int) :
    Nat → Int
  | 0 => 0
  | fuel + 1 =>
    if ¬ tcollides st shape rot x (y + 1) then
      1 + hard_drop_distance st shape rot x (y + 1) fuel
    else 0

/- ## Claims C5 and C7 -/

/-- A concrete mid-game Tetris state: empty board, a T piece at the top,
default settings. -/
def tetrisSt5 : TetrisState :=
  { BW := 10, BH := 20,
    board := List.replicate 20 (List.replicate 10 (none : Option String)),
    current := some ("T", 0, 3, 0),
    next_queue := ["I", "O", "T", "S", "Z", "J", "L"],
    score := 0, level := 1, lines_cleared := 0, highscore := 0,
    paused := false, game_over := false,
    speed_ms := 500, soft_drop_points := 1, hard_drop_points := 2,
    current_speed := 500, timer_active := true }

/-- Counterexample to C5: the automatic gravity tick advances the piece
down one row and DOES change the score — it awards the soft-drop points,
because `tick` simply calls `move(0, 1)` and `move` credits every
successful downward move. -/
theorem tetris_gravity_scores_counterexample :
    (ttick [] tetrisSt5).map TetrisState.score = some 1
  ∧ ¬ (ttick [] tetrisSt5).map TetrisState.score = some tetrisSt5.score := by
  constructor
  · rfl
  · decide

/-- Claim C5 (amended): every successful downward move by one row with
no horizontal change awards the configured soft-drop points, whether it
comes from the user's down key or from the automatic gravity tick; the
gravity tick is literally `move(0, 1)`, so a tick on an unobstructed
piece increments the score by the soft-drop value. -/
theorem tetris_soft_drop_amended (bag : List String) (st : TetrisState)
    (shape : String) (rot : Nat) (x y : Int)
    (hp : st.paused = false) (hg : st.game_over = false)
    (hc : st.current = some (shape, rot, x, y))
    (hcol : tcollides st shape rot x (y + 1) = false) :
    ttick bag st = some { st with
      current := some (shape, rot, x, y + 1)
      score := st.score + st.soft_drop_points }
  ∧ tmove bag st 0 1 = ttick bag st := by
  have hmv : tmove bag st 0 1 = some { st with
      current := some (shape, rot, x, y + 1)
      score := st.score + st.soft_drop_points } := by
    rw [tmove, hc]
    simp only [hp, hg, Bool.or_self, Bool.false_eq_true, if_false]
    rw [if_pos (by simpa using hcol)]
    norm_num
  have htk : ttick bag st = tmove bag st 0 1 := by
    rw [ttick]
    simp [hp, hg]
  exact ⟨htk.trans hmv, htk.symm⟩

/-- Witness for C5 (amended): the concrete state above ticks to score 1. -/
theorem tetris_soft_drop_witness :
    ttick [] tetrisSt5 = some { tetrisSt5 with
      current := some ("T", 0, 3, 1)
      score := 1 } :=
  (tetris_soft_drop_amended [] tetrisSt5 "T" 0 3 0 rfl rfl rfl (by decide)).1

/-- Claim C7: a lock clearing exactly `n ∈ {1,2,3,4}` full rows awards
`(40, 100, 300, 1200)[n−1] · level` points (so 40/100/300/1200 at level
1); the line counter grows by `n`, the level becomes
`1 + lines/10` (so the 10th cumulative line moves level 1 → 2), and the
tick interval becomes `max(80, base − (level−1)·35)` (so 500ms → 465ms
for the default 500ms base). -/
theorem tetris_scoring_spec (st : TetrisState) (n : Nat)
    (hb : (st.board.filter (fun row => row.any (fun c => c.isNone))).length
      = st.BH - n)
    (hnB : n ≤ st.BH)
    (h1 : 1 ≤ n) (h4 : n ≤ 4) :
    ∃ st2, clear_lines st = some st2
      ∧ st2.score = st.score
          + (if n = 1 then 40 else if n = 2 then 100 else if n = 3 then 300 else 1200)
            * (st.level : Int)
      ∧ st2.lines_cleared = st.lines_cleared + n
      ∧ st2.level = 1 + (st.lines_cleared + n) / 10
      ∧ st2.current_speed
          = max 80 (st.speed_ms - (((1 + (st.lines_cleared + n) / 10 : Nat) : Int) - 1) * 35)
      ∧ (st.level = 1 → st.lines_cleared = 9 → n = 1 → st.speed_ms = 500 →
          st2.score = st.score + 40 ∧ st2.level = 2 ∧ st2.current_speed = 465) := by
  have hcl : st.BH - (st.board.filter (fun row => row.any (fun c => c.isNone))).length
      = n := by omega
  have hpos : 0 < n := h1
  have htab : clearTable n
      = some (if n = 1 then 40 else if n = 2 then 100 else if n = 3 then 300 else 1200) := by
    interval_cases n <;> rfl
  refine ⟨update_speed
    { st with
      board := List.replicate n (List.replicate st.BW (none : Option String))
        ++ st.board.filter (fun row => row.any (fun c => c.isNone))
      lines_cleared := st.lines_cleared + n
      score := st.score
        + (if n = 1 then 40 else if n = 2 then 100 else if n = 3 then 300 else 1200)
          * (st.level : Int)
      level := 1 + (st.lines_cleared + n) / 10 },
    ?_, rfl, rfl, rfl, rfl, ?_⟩
  · unfold clear_lines
    simp only [hcl, htab]
    rw [if_pos hpos]
  · intro hlv hlc hn hsp
    subst hn
    refine ⟨by simp [update_speed, hlv], by simp [update_speed, hlc], ?_⟩
    simp only [update_speed, hlc, hsp]
    norm_num

/-- A board with nine previously cleared lines and exactly one full
bottom row, one away from the level-2 transition. -/
def tetrisSt7 : TetrisState :=
  { BW := 4, BH := 6,
    board := List.replicate 5 (List.replicate 4 (none : Option String))
      ++ [List.replicate 4 (some "I")],
    current := none,
    next_queue := ["I", "O", "T", "S", "Z", "J", "L"],
    score := 300, level := 1, lines_cleared := 9, highscore := 0,
    paused := false, game_over := false,
    speed_ms := 500, soft_drop_points := 1, hard_drop_points := 2,
    current_speed := 500, timer_active := true }

/-- Witness for C7: clearing the single full row of the concrete board
above awards 40 points at level 1, moves the level to 2 and the tick
interval to 465ms. -/
theorem tetris_scoring_witness :
    ∃ st2, clear_lines tetrisSt7 = some st2
      ∧ st2.score = 340 ∧ st2.level = 2 ∧ st2.current_speed = 465 := by
  obtain ⟨st2, hcl, _, _, _, _, hcond⟩ :=
    tetris_scoring_spec tetrisSt7 1 (by decide) (by decide) (by decide) (by decide)
  obtain ⟨hsc, hlvl, hspd⟩ := hcond rfl rfl rfl rfl
  exact ⟨st2, hcl, by simpa using hsc, hlvl, hspd⟩

/- ## Snake (`apps/snake.py`) -/

/-- The mutable state of `SnakeApp` relevant to one tick.  Coordinates
are integer cells (Qt `QPoint`s). -/
structure SnakeState where
  snake : List (Int × Int)
  dir : Int × Int
  next_dir : Int × Int
  food : Int × Int
  score : Int
  high_score : Int
  grid_w : Int
  grid_h : Int
  wrap_mode : Bool
  paused : Bool
  game_over : Bool
  timer_active : Bool
deriving DecidableEq

/-- `_rand_food`, parameterised by the random choice from the free-cell
list; an empty free set degenerates to the origin. -/
def rand_food (choice : List (Int × Int) → Int × Int) (st : SnakeState) : Int × Int :=
  let all := (List.range st.grid_w.toNat).flatMap (fun x =>
    (List.range st.grid_h.toNat).map (fun y => ((x : Int), (y : Int))))
  let free := all.filter (fun c => ¬ st.snake.contains c)
  if free.isEmpty then (0, 0) else choice free

/-- `SnakeApp._tick`: apply the queued direction unless it reverses the
current one; advance the head; wrap both coordinates or end the game at
a wall; end the game on self-collision; grow on food (re-seeding it via
`choice`), else drop the tail.  An empty snake is Python's uncaught
index error. -/
def snake_tick (choice : List (Int × Int) → Int × Int) (st : SnakeState) :
    Option SnakeState :=
  if st.paused || st.game_over then some st
  else
    match st.snake with
    | [] => none
    | head :: _ =>
      let dir := if ¬ (st.next_dir.1 + st.dir.1, st.next_dir.2 + st.dir.2) = ((0 : Int), (0 : Int))
        then st.next_dir else st.dir
      let st := { st with dir := dir }
      let raw := (head.1 + dir.1, head.2 + dir.2)
      if st.wrap_mode then
        let new_head := ((raw.1 + st.grid_w) % st.grid_w, (raw.2 + st.grid_h) % st.grid_h)
        if st.snake.contains new_head then
          some { st with game_over := true, timer_active := false }
        else
          let st := { st with snake := new_head :: st.snake }
          if new_head = st.food then
            some { st with
              score := st.score + 1
              high_score := if st.score + 1 > st.high_score then st.score + 1
                else st.high_score
              food := rand_food choice st }
          else some { st with snake := st.snake.dropLast }
      else
        if ¬ (0 ≤ raw.1 ∧ raw.1 < st.grid_w ∧ 0 ≤ raw.2 ∧ raw.2 < st.grid_h) then
          some { st with game_over := true, timer_active := false }
        else if st.snake.contains raw then
          some { st with game_over := true, timer_active := false }
        else
          let st := { st with snake := raw :: st.snake }
          if raw = st.food then
            some { st with
              score := st.score + 1
              high_score := if st.score + 1 > st.high_score then st.score + 1
                else st.high_score
              food := rand_food choice st }
          else some { st with snake := st.snake.dropLast }

/- ## Claim C8 -/

/-- Claim C8: with the head in the rightmost column and direction right,
a tick in wrap mode advances the head to column 0 with the row unchanged
(both coordinates reduced modulo the grid dimensions) and the game goes
on; in non-wrap mode the same move ends the game (and the snake does not
move). -/
theorem snake_wrap_spec (choice : List (Int × Int) → Int × Int)
    (st : SnakeState) (y : Int) (rest : List (Int × Int))
    (hp : st.paused = false) (hg : st.game_over = false)
    (hd : st.dir = (1, 0)) (hnd : st.next_dir = (1, 0))
    (hs : st.snake = (st.grid_w - 1, y) :: rest)
    (hy0 : 0 ≤ y) (hyh : y < st.grid_h) :
    (st.wrap_mode = true → st.snake.contains ((0 : Int), y) = false →
      ∃ st', snake_tick choice st = some st'
        ∧ st'.snake.head? = some (0, y)
        ∧ st'.game_over = false)
  ∧ (st.wrap_mode = false →
      ∃ st', snake_tick choice st = some st'
        ∧ st'.game_over = true
        ∧ st'.timer_active = false
        ∧ st'.snake = st.snake) := by
  have hx0 : (st.grid_w - 1 + 1 + st.grid_w) % st.grid_w = 0 := by
    have h2 : st.grid_w - 1 + 1 + st.grid_w = st.grid_w * 2 := by ring
    rw [h2]
    exact Int.mul_emod_right st.grid_w 2
  have hy1 : (y + st.grid_h) % st.grid_h = y := by
    have h2 : y + st.grid_h = y + st.grid_h * 1 := by ring
    rw [h2, Int.add_mul_emod_self_left]
    exact Int.emod_eq_of_lt hy0 hyh
  have hdirkeep :
      (if ¬ (st.next_dir.1 + st.dir.1, st.next_dir.2 + st.dir.2) = ((0 : Int), (0 : Int))
        then st.next_dir else st.dir) = (1, 0) := by
    rw [hd, hnd]
    norm_num
  constructor
  · intro hwrap hno
    rw [snake_tick]
    simp only [hp, hg, Bool.or_self, Bool.false_eq_true, if_false, hs, hdirkeep, hwrap,
      if_true]
    have hraw : ((st.grid_w - 1 + 1 + st.grid_w) % st.grid_w,
        (y + 0 + st.grid_h) % st.grid_h) = ((0 : Int), y) := by
      rw [hx0]
      norm_num [hy1]
    rw [hraw]
    have hno2 : ((st.grid_w - 1, y) :: rest).contains ((0 : Int), y) = false := by
      rw [← hs]
      exact hno
    rw [hno2]
    simp only [Bool.false_eq_true, if_false]
    by_cases hfood : ((0 : Int), y) = st.food
    · rw [if_pos (by exact hfood)]
      exact ⟨_, rfl, by simp [hs], rfl⟩
    · rw [if_neg (by exact hfood)]
      refine ⟨_, rfl, ?_, rfl⟩
      simp [hs, List.dropLast]
  · intro hwrap
    rw [snake_tick]
    simp only [hp, hg, Bool.or_self, Bool.false_eq_true, if_false, hs, hdirkeep, hwrap,
      if_false]
    have hbound : ¬ (0 ≤ st.grid_w - 1 + 1 ∧ st.grid_w - 1 + 1 < st.grid_w
        ∧ 0 ≤ y + 0 ∧ y + 0 < st.grid_h) := by
      intro ⟨_, h2, _, _⟩
      omega
    rw [if_pos (by exact hbound)]
    exact ⟨_, rfl, rfl, rfl, rfl⟩

/-- A concrete 6×6 snake heading right at the rightmost column. -/
def snakeSt8 (wrap : Bool) : SnakeState :=
  { snake := [(5, 2), (4, 2), (3, 2)], dir := (1, 0), next_dir := (1, 0),
    food := (0, 0), score := 0, high_score := 0, grid_w := 6, grid_h := 6,
    wrap_mode := wrap, paused := false, game_over := false, timer_active := true }

/-- Witness for C8: on the concrete 6-wide grid the wrap-mode tick moves
the head to column 0 of row 2, while the walls-mode tick ends the game
with the snake unmoved. -/
theorem snake_wrap_witness :
    (∃ st', snake_tick (fun l => l.headD (0, 0)) (snakeSt8 true) = some st'
      ∧ st'.snake.head? = some (0, 2) ∧ st'.game_over = false)
  ∧ (∃ st', snake_tick (fun l => l.headD (0, 0)) (snakeSt8 false) = some st'
      ∧ st'.game_over = true ∧ st'.timer_active = false
      ∧ st'.snake = (snakeSt8 false).snake) :=
  ⟨(snake_wrap_spec (fun l => l.headD (0, 0)) (snakeSt8 true) 2 [(4, 2), (3, 2)]
      rfl rfl rfl rfl (by decide) (by decide) (by decide)).1 rfl (by decide),
    (snake_wrap_spec (fun l => l.headD (0, 0)) (snakeSt8 false) 2 [(4, 2), (3, 2)]
      rfl rfl rfl rfl (by decide) (by decide) (by decide)).2 rfl⟩

/- ## Security Manager toggles (`apps/security_manager.py`) -/

/-- In-memory toggle state plus the persisted `security.json`
document (`none` = file absent). -/
structure SecCtx where
  state : List (String × Bool)
  disk : Option (List (String × Bool))
deriving DecidableEq

/-- The observable outcome of one checkbox change: the new context, the
checkbox's final checked state, and whether a confirmation dialog was
shown. -/
structure SecOutcome where
  ctx : SecCtx
  checkbox : Bool
  prompted : Bool
deriving DecidableEq

/-- `_on_toggle`: write the checkbox value into the in-memory state and
persist the whole state immediately. -/
def on_toggle (ctx : SecCtx) (key : String) (checked : Bool) : SecOutcome :=
  let st := dictUpd ctx.state key checked
  { ctx := { state := st, disk := some st }, checkbox := checked, prompted := false }

/-- `_on_toggle_with_warning`: checking (OFF → ON) persists without any
prompt; unchecking shows the warning — declining re-checks the box with
signals blocked (no state change, nothing persisted), confirming
persists the OFF value immediately. -/
def on_toggle_with_warning (ctx : SecCtx) (key : String) (checked : Bool)
    (confirm : Bool) : SecOutcome :=
  if checked then on_toggle ctx key checked
  else if confirm then
    { on_toggle ctx key false with prompted := true }
  else
    { ctx := ctx, checkbox := true, prompted := true }

/- ## Claim C9 -/

/-- Claim C9: for a danger-marked key, unchecking prompts; declining
leaves both the in-memory state and the persisted file unchanged and
re-checks the checkbox; confirming writes OFF into the state and
persists it immediately; checking never prompts and persists
immediately. -/
theorem security_danger_toggle_spec (ctx : SecCtx) (key : String) :
    (on_toggle_with_warning ctx key false false
      = { ctx := ctx, checkbox := true, prompted := true })
  ∧ ((on_toggle_with_warning ctx key false true).prompted = true
      ∧ dlookup (on_toggle_with_warning ctx key false true).ctx.state key = some false
      ∧ (on_toggle_with_warning ctx key false true).ctx.disk
          = some (on_toggle_with_warning ctx key false true).ctx.state)
  ∧ (∀ confirm, on_toggle_with_warning ctx key true confirm
      = { on_toggle ctx key true with prompted := false })
  ∧ ((on_toggle ctx key true).prompted = false
      ∧ (on_toggle ctx key true).ctx.disk = some (on_toggle ctx key true).ctx.state) := by
  refine ⟨rfl, ⟨rfl, ?_, rfl⟩, fun confirm => rfl, rfl, rfl⟩
  show dlookup (dictUpd ctx.state key false) key = some false
  rw [dlookup_dictUpd]
  simp

/-- A concrete security context with `rt_scanning` ON, persisted. -/
def secCtx9 : SecCtx :=
  { state := [("rt_scanning", true)], disk := some [("rt_scanning", true)] }

/-- Witness for C9: a concrete context with `rt_scanning` ON. -/
theorem security_danger_toggle_witness :
    on_toggle_with_warning secCtx9 "rt_scanning" false false
      = { ctx := secCtx9, checkbox := true, prompted := true }
  ∧ dlookup (on_toggle_with_warning secCtx9 "rt_scanning" false true).ctx.state
      "rt_scanning" = some false :=
  ⟨(security_danger_toggle_spec secCtx9 "rt_scanning").1,
    (security_danger_toggle_spec secCtx9 "rt_scanning").2.1.2.1⟩

/- ## Terminal (`apps/terminal.py`) -/

/-- Per-window terminal state: only the working directory and command
history are window-local; there is no window-local variable table. -/
structure TermSt where
  cwd : String
  history : List String
deriving DecidableEq

/-- The process: one shared `os.environ` and the open terminal windows
(`none` = a closed window). -/
structure PyOSWorld where
  env : List (String × String)
  terms : List (Option TermSt)
deriving DecidableEq

/-- `os.pathsep` (POSIX form in this model). -/
def PATHSEP : String := ":"

/-- Remove a key (`dict.pop(name, None)`). -/
def dictRemove : List (String × α) → String → List (String × α)
  | [], _ => []
  | p :: d, k => if p.1 = k then dictRemove d k else p :: dictRemove d k

/-- Ordering used by Python's `sorted` on `(key, value)` string pairs. -/
def pairLe (a b : String × String) : Bool :=
  if a.1 = b.1 then pyStrLe a.2 b.2 else pyStrLt a.1 b.1

/-- `_cmd_env`: print every `NAME=VALUE`, sorted. -/
def cmd_env (w : PyOSWorld) : List String :=
  (pySort pairLe w.env).map (fun kv => kv.1 ++ "=" ++ kv.2)

/-- Split at the first `'='`. -/
def splitFirstEqAux : List Char → Option (List Char × List Char)
  | [] => none
  | c :: rest =>
    if c = '=' then some ([], rest)
    else (splitFirstEqAux rest).map (fun pr => (c :: pr.1, pr.2))

/-- `_cmd_set`: no arguments lists the environment; `NAME=VALUE` writes
`os.environ[NAME] = VALUE` (the process-wide environment — there is no
terminal-local table) and echoes it; a bare `NAME` echoes its current
value.  `i` is the issuing window's index; note it is never read. -/
def cmd_set (w : PyOSWorld) (_i : Nat) (args : List String) :
    PyOSWorld × List String :=
  if args.isEmpty then (w, cmd_env w)
  else
    let line := " ".intercalate args
    match splitFirstEqAux line.data with
    | some (nm, vl) =>
      let name : String := ⟨nm⟩
      let val : String := ⟨vl⟩
      ({ w with env := dictUpd w.env name val }, [name ++ "=" ++ val])
    | none => (w, [line ++ "=" ++ ((dlookup w.env line).getD "")])

/-- `_cmd_unset`: `os.environ.pop(name, None)` for each argument. -/
def cmd_unset (w : PyOSWorld) (args : List String) : PyOSWorld :=
  { w with env := args.foldl dictRemove w.env }

/-- `_cmd_path`: split the current `PATH` value and print each entry. -/
def cmd_path (w : PyOSWorld) : List String :=
  (((dlookup w.env "PATH").getD "").splitOn PATHSEP)

/-- The extension list `_cmd_which` probes. -/
def WHICH_EXTS : List String := ["", ".exe", ".bat", ".cmd", ".py"]

/-- The PATH part of `_cmd_which`: first folder, first extension, whose
joined candidate exists (existence per the oracle `pexists`). -/
def whichSearch (pexists : String → Bool) (nm : String) (folders : List String) :
    List String :=
  match folders.findSome? (fun folder =>
    (WHICH_EXTS.find? (fun ext => pexists (folder ++ "/" ++ nm ++ ext))).map
      (fun ext => folder ++ "/" ++ nm ++ ext)) with
  | some cand => [cand]
  | none => ["Not found."]

/-- `_cmd_which`: try the issuing window's working directory first (the
candidate must exist and be a file), then every folder of the current
`PATH`.  The environment is read fresh from the shared `os.environ`. -/
def cmd_which (pexists isFile : String → Bool) (w : PyOSWorld) (i : Nat)
    (args : List String) : List String :=
  match args with
  | [] => ["Usage: which <name>"]
  | nm :: _ =>
    let cwd := ((w.terms.getD i none).map (fun t => t.cwd)).getD ""
    match WHICH_EXTS.find? (fun ext => isFile (cwd ++ "/" ++ nm ++ ext)) with
    | some ext => [cwd ++ "/" ++ nm ++ ext]
    | none =>
      whichSearch pexists nm (((dlookup w.env "PATH").getD "").splitOn PATHSEP)

/-- Closing a terminal window (`exit`): the window goes away; nothing
touches the environment. -/
def close_term (w : PyOSWorld) (i : Nat) : PyOSWorld :=
  { w with terms := w.terms.set i none }

theorem splitFirstEqAux_none (cs : List Char) (h : ¬ '=' ∈ cs) :
    splitFirstEqAux cs = none := by
  induction cs with
  | nil => rfl
  | cons c rest ih =>
    have hc : ¬ c = '=' := fun hh => h (hh ▸ List.mem_cons_self c rest)
    simp only [splitFirstEqAux, if_neg hc,
      ih (fun hm => h (List.mem_cons_of_mem c hm))]
    rfl

theorem splitFirstEqAux_split (nm vl : List Char) (h : ¬ '=' ∈ nm) :
    splitFirstEqAux (nm ++ '=' :: vl) = some (nm, vl) := by
  induction nm with
  | nil => simp [splitFirstEqAux]
  | cons c rest ih =>
    have hc : ¬ c = '=' := fun hh => h (hh ▸ List.mem_cons_self c rest)
    have ih2 := ih (fun hm => h (List.mem_cons_of_mem c hm))
    simp [splitFirstEqAux, hc, ih2]

theorem mem_ordIns (le : α → α → Bool) (a x : α) (l : List α) :
    x ∈ ordIns le a l ↔ x = a ∨ x ∈ l := by
  induction l with
  | nil => simp [ordIns]
  | cons y ys ih =>
    by_cases h : le a y
    · simp [ordIns, h, List.mem_cons]
    · simp only [ordIns, if_neg h, List.mem_cons, ih]
      tauto

theorem mem_pySort (le : α → α → Bool) (x : α) (l : List α) :
    x ∈ pySort le l ↔ x ∈ l := by
  induction l with
  | nil => simp [pySort]
  | cons y ys ih =>
    simp only [pySort, mem_ordIns, List.mem_cons, ih]

theorem mem_dictUpd_self (d : List (String × α)) (k : String) (v : α) :
    (k, v) ∈ dictUpd d k v := by
  induction d with
  | nil => simp [dictUpd]
  | cons p rest ih =>
    by_cases hp : p.1 = k
    · simp [dictUpd, hp]
    · simp only [dictUpd, if_neg hp, List.mem_cons]
      exact Or.inr ih

theorem dlookup_dictRemove_self (d : List (String × α)) (k : String) :
    dlookup (dictRemove d k) k = none := by
  induction d with
  | nil => rfl
  | cons p rest ih =>
    by_cases hp : p.1 = k
    · simp only [dictRemove, if_pos hp]
      exact ih
    · simp only [dictRemove, if_neg hp, dlookup, if_neg hp]
      exact ih

theorem strcat_data (name val : String) :
    (name ++ "=" ++ val).data = name.data ++ '=' :: val.data := by
  simp [String.data_append]

/-- `which` falls through to the PATH search when no working-directory
candidate matches. -/
theorem cmd_which_path (pexists isFile : String → Bool) (w : PyOSWorld) (j : Nat)
    (nm : String)
    (hcwd : WHICH_EXTS.find? (fun ext => isFile
      ((((w.terms.getD j none).map (fun t => t.cwd)).getD "") ++ "/" ++ nm ++ ext))
      = none) :
    cmd_which pexists isFile w j [nm]
      = whichSearch pexists nm (((dlookup w.env "PATH").getD "").splitOn PATHSEP) := by
  simp only [cmd_which]
  rw [hcwd]

/- ## Claim C10 -/

/-- Claim C10: `set NAME=VALUE` writes the process-wide environment and
nothing window-local: the terminal list is untouched, the new value is
immediately visible to `set NAME`, `env`, `path` and `which` issued from
any other window, `unset NAME` removes it process-wide, and closing the
issuing window leaves the environment (and the setting) intact. -/
theorem terminal_env_process_wide (w : PyOSWorld) (i j : Nat) (name val : String)
    (hno : ¬ '=' ∈ name.data) :
    (cmd_set w i [name ++ "=" ++ val]).2 = [name ++ "=" ++ val]
  ∧ ((cmd_set w i [name ++ "=" ++ val]).1).terms = w.terms
  ∧ dlookup ((cmd_set w i [name ++ "=" ++ val]).1).env name = some val
  ∧ (cmd_set ((cmd_set w i [name ++ "=" ++ val]).1) j [name]).1
      = (cmd_set w i [name ++ "=" ++ val]).1
  ∧ (cmd_set ((cmd_set w i [name ++ "=" ++ val]).1) j [name]).2
      = [name ++ "=" ++ val]
  ∧ (name ++ "=" ++ val) ∈ cmd_env ((cmd_set w i [name ++ "=" ++ val]).1)
  ∧ (name = "PATH" →
      cmd_path ((cmd_set w i [name ++ "=" ++ val]).1) = val.splitOn PATHSEP)
  ∧ (name = "PATH" → ∀ (pexists isFile : String → Bool) (nm : String),
      WHICH_EXTS.find? (fun ext => isFile
        (((((cmd_set w i [name ++ "=" ++ val]).1).terms.getD j none).map
            (fun t => t.cwd)).getD "" ++ "/" ++ nm ++ ext)) = none →
      cmd_which pexists isFile ((cmd_set w i [name ++ "=" ++ val]).1) j [nm]
        = whichSearch pexists nm (val.splitOn PATHSEP))
  ∧ dlookup (cmd_unset ((cmd_set w i [name ++ "=" ++ val]).1) [name]).env name = none
  ∧ (close_term ((cmd_set w i [name ++ "=" ++ val]).1) i).env
      = ((cmd_set w i [name ++ "=" ++ val]).1).env := by
  have hsplit : splitFirstEqAux (name ++ "=" ++ val).data
      = some (name.data, val.data) := by
    rw [strcat_data]
    exact splitFirstEqAux_split name.data val.data hno
  have hrun : cmd_set w i [name ++ "=" ++ val]
      = ({ w with env := dictUpd w.env name val }, [name ++ "=" ++ val]) := by
    unfold cmd_set
    have hline : (" ".intercalate [name ++ "=" ++ val]) = name ++ "=" ++ val := rfl
    simp only [List.isEmpty_cons, Bool.false_eq_true, if_false, hline, hsplit]
  have hlook : dlookup ((cmd_set w i [name ++ "=" ++ val]).1).env name = some val := by
    rw [hrun]
    show dlookup (dictUpd w.env name val) name = some val
    rw [dlookup_dictUpd]
    simp
  have hread : cmd_set ((cmd_set w i [name ++ "=" ++ val]).1) j [name]
      = ((cmd_set w i [name ++ "=" ++ val]).1, [name ++ "=" ++ val]) := by
    rw [hrun]
    show cmd_set { env := dictUpd w.env name val, terms := w.terms } j [name]
      = ({ env := dictUpd w.env name val, terms := w.terms }, [name ++ "=" ++ val])
    unfold cmd_set
    have hline2 : (" ".intercalate [name]) = name := rfl
    simp only [List.isEmpty_cons, Bool.false_eq_true, if_false, hline2,
      splitFirstEqAux_none name.data hno]
    have h2 : dlookup
        ({ env := dictUpd w.env name val, terms := w.terms } : PyOSWorld).env name
        = some val := by
      show dlookup (dictUpd w.env name val) name = some val
      rw [dlookup_dictUpd]
      simp
    rw [h2]
    rfl
  refine ⟨by rw [hrun], by rw [hrun], hlook, by rw [hread], by rw [hread], ?_, ?_, ?_,
    ?_, rfl⟩
  · have hmem : (name, val) ∈ ((cmd_set w i [name ++ "=" ++ val]).1).env := by
      rw [hrun]
      exact mem_dictUpd_self w.env name val
    exact List.mem_map_of_mem (fun kv => kv.1 ++ "=" ++ kv.2)
      ((mem_pySort pairLe (name, val) _).mpr hmem)
  · intro hpath
    subst hpath
    unfold cmd_path
    rw [hlook]
    rfl
  · intro hpath pexists isFile nm hcwd
    subst hpath
    rw [cmd_which_path pexists isFile _ j nm hcwd, hlook]
    rfl
  · show dlookup (dictRemove ((cmd_set w i [name ++ "=" ++ val]).1).env name) name = none
    exact dlookup_dictRemove_self _ name

/-- A process with two open terminal windows. -/
def world10 : PyOSWorld :=
  { env := [("HOME", "/root")],
    terms := [some { cwd := "/proj", history := [] },
      some { cwd := "/proj/sub", history := [] }] }

/-- Witness for C10: setting `PATH` from window 0 is visible to a
`path` listing issued from window 1, and the terminal windows are
untouched. -/
theorem terminal_env_witness :
    dlookup ((cmd_set world10 0 ["PATH" ++ "=" ++ "/bin:/usr/bin"]).1).env "PATH"
      = some "/bin:/usr/bin"
  ∧ cmd_path ((cmd_set world10 0 ["PATH" ++ "=" ++ "/bin:/usr/bin"]).1)
      = "/bin:/usr/bin".splitOn PATHSEP
  ∧ ((cmd_set world10 0 ["PATH" ++ "=" ++ "/bin:/usr/bin"]).1).terms = world10.terms :=
  ⟨(terminal_env_process_wide world10 0 1 "PATH" "/bin:/usr/bin" (by decide)).2.2.1,
    by
      exact (terminal_env_process_wide world10 0 1 "PATH" "/bin:/usr/bin"
        (by decide)).2.2.2.2.2.2.1 rfl,
    (terminal_env_process_wide world10 0 1 "PATH" "/bin:/usr/bin" (by decide)).2.1⟩
